import Mathlib

/-!
# finance_tracker: the filtering / aggregation / import pipeline of `src/app.js`

A shallow embedding of the data transformations of the dashboard
(`applyFilters`, `renderSummary`, `aggregateByCategory`, `groupByMonthNet`,
`renderBudgets`, `renderCategoryChart`, the footer of `renderTable`, `parseCSV`,
`mergeTransactions`, the JSON export and import, and the add / edit handlers)
together with theorems relating them to the statements of the specification.

Modelling conventions

* A JavaScript string is a Lean `String` (a well-formed sequence of code points).
* A JavaScript number is a `JSNum`: `NaN`, an infinity, or a finite double
  kept as the rational it stands for. Arithmetic computes the exact result
  and rounds it to the nearest double (IEEE 754, ties to even); the two zeros
  are not told apart.
* A JavaScript `Date` is its time value, `Option Int`: milliseconds since the
  epoch, `none` standing for `Invalid Date`.
* The built-ins whose result depends on the engine or on the machine
  (`String.prototype.toLowerCase`, `Date.parse`, the local-time getters,
  `Number(...)`) are fields of a `Host`; every general theorem holds for every
  host, and concrete evaluations use the host `stdHost`.
* The DOM controls a function reads are passed to it as a record.
* An object used as a map is the list of its own properties in creation
  order (`JSObj`), read through the prototype chain; a value handled by the
  JSON export and import is a `Val`.
* `Array.prototype.sort` is an argument of the functions that depend on it,
  assumed to return a permutation.
-/

namespace FinanceTracker

/-! ## JavaScript numbers

A JavaScript number is an IEEE 754 double. A finite double is kept as the
rational it stands for; every arithmetic operation computes the exact result
and rounds it to the nearest double, ties to the even mantissa, as the
standard prescribes. The two zeros are not told apart. -/

/-- A JavaScript number: `NaN`, a finite value, `Infinity` or `-Infinity`. -/
inductive JSNum where
  | nan : JSNum
  | fin (q : ℚ) : JSNum
  | inf : JSNum
  | ninf : JSNum
  deriving DecidableEq

/-- The power `2 ^ e` for an integer exponent. -/
def pow2 (e : ℤ) : ℚ :=
  if 0 ≤ e then ((2 ^ e.toNat : ℕ) : ℚ) else 1 / ((2 ^ (-e).toNat : ℕ) : ℚ)

/-- The number of binary digits of `n` after the first, with `fuel` steps. -/
def log2Fuel : Nat → Nat → Nat
  | 0, _ => 0
  | fuel + 1, n => if 2 ≤ n then log2Fuel fuel (n / 2) + 1 else 0

/-- The number of binary digits of `n` after the first. -/
def bitLog (n : Nat) : Nat := log2Fuel n n

/-- The exponent `e` with `2 ^ e ≤ q < 2 ^ (e + 1)`, for a positive `q`. -/
def floorLog2 (q : ℚ) : ℤ :=
  let e : ℤ := (bitLog q.num.natAbs : ℤ) - (bitLog q.den : ℤ)
  if pow2 e ≤ q then e else e - 1

/-- The integer nearest to `m`, a half going to the even neighbour. -/
def roundHalfEven (m : ℚ) : ℤ :=
  if m - ⌊m⌋ < 1 / 2 then ⌊m⌋
  else if 1 / 2 < m - ⌊m⌋ then ⌊m⌋ + 1
  else if ⌊m⌋ % 2 = 0 then ⌊m⌋ else ⌊m⌋ + 1

/-- The double nearest to a positive rational `a`: a multiple of the unit
`2 ^ p` of its binade (53 significant bits, least exponent -1074); `none`
when the result passes the largest double. -/
def roundMag (a : ℚ) : Option ℚ :=
  let p := max (floorLog2 a) (-1022) - 52
  let v := (roundHalfEven (a / pow2 p) : ℚ) * pow2 p
  if pow2 1024 ≤ v then none else some v

/-- The double nearest to a rational, an infinity on overflow. -/
def roundDouble (q : ℚ) : JSNum :=
  if q = 0 then JSNum.fin 0
  else if 0 < q then
    match roundMag q with
    | some v => JSNum.fin v
    | none => JSNum.inf
  else
    match roundMag (-q) with
    | some v => JSNum.fin (-v)
    | none => JSNum.ninf

namespace JSNum

/-- The unary operator `-a`. -/
def neg : JSNum → JSNum
  | fin a => fin (-a)
  | nan => nan
  | inf => ninf
  | ninf => inf

/-- The operator `a + b` on numbers. -/
def add : JSNum → JSNum → JSNum
  | fin a, fin b => roundDouble (a + b)
  | nan, _ => nan
  | _, nan => nan
  | inf, ninf => nan
  | ninf, inf => nan
  | inf, _ => inf
  | _, inf => inf
  | ninf, _ => ninf
  | _, ninf => ninf

/-- The operator `a - b` on numbers. -/
def sub (a b : JSNum) : JSNum :=
  match a, b with
  | fin x, fin y => roundDouble (x - y)
  | _, _ => a.add b.neg

/-- Truthiness of a number: everything except `0` and `NaN`. -/
def truthy : JSNum → Bool
  | fin a => decide (a ≠ 0)
  | nan => false
  | inf => true
  | ninf => true

/-- The expression `a || 0` for a number `a`. -/
def orZero (a : JSNum) : JSNum := if a.truthy then a else fin 0

/-- The comparison `a >= b`; false as soon as one side is `NaN`. -/
def ge : JSNum → JSNum → Bool
  | nan, _ => false
  | _, nan => false
  | fin a, fin b => decide (b ≤ a)
  | inf, _ => true
  | _, ninf => true
  | _, _ => false

/-- The comparison `a > b`; false as soon as one side is `NaN`. -/
def gt : JSNum → JSNum → Bool
  | nan, _ => false
  | _, nan => false
  | fin a, fin b => decide (b < a)
  | inf, inf => false
  | inf, _ => true
  | ninf, _ => false
  | fin _, ninf => true
  | fin _, inf => false

/-- A finite number: neither `NaN` nor an infinity. -/
def IsFinite : JSNum → Prop
  | fin _ => True
  | _ => False

instance : DecidablePred IsFinite := fun a =>
  match a with
  | fin _ => isTrue trivial
  | inf => isFalse (fun h => h)
  | ninf => isFalse (fun h => h)
  | nan => isFalse (fun h => h)

/-- A whole number: a finite number without a fractional part. -/
def IsWhole : JSNum → Prop
  | fin q => q.den = 1
  | _ => False

instance : DecidablePred IsWhole := fun a =>
  match a with
  | fin q => inferInstanceAs (Decidable (q.den = 1))
  | inf => isFalse (fun h => h)
  | ninf => isFalse (fun h => h)
  | nan => isFalse (fun h => h)

/-- The rational value of a finite number, `0` for the others. -/
def val : JSNum → ℚ
  | fin a => a
  | _ => 0

end JSNum

/-! ## Strings -/

/-- The characters `String.prototype.trim` removes: ECMAScript `WhiteSpace`
and `LineTerminator`. -/
def isJsSpace (c : Char) : Bool :=
  let n := c.toNat
  n = 0x09 || n = 0x0A || n = 0x0B || n = 0x0C || n = 0x0D || n = 0x20 ||
  n = 0xA0 || n = 0x1680 || (0x2000 ≤ n && n ≤ 0x200A) || n = 0x2028 ||
  n = 0x2029 || n = 0x202F || n = 0x205F || n = 0x3000 || n = 0xFEFF

/-- Drop the white space at the end of a character list. -/
def trimEndChars (l : List Char) : List Char :=
  (l.reverse.dropWhile isJsSpace).reverse

/-- Drop the white space at both ends of a character list. -/
def trimChars (l : List Char) : List Char :=
  trimEndChars (l.dropWhile isJsSpace)

/-- The method `s.trim()`. -/
def trim (s : String) : String := ⟨trimChars s.data⟩

/-- Whether the pattern starts the text. -/
def startsWithChars : List Char → List Char → Bool
  | _, [] => true
  | [], _ :: _ => false
  | c :: cs, p :: ps => c == p && startsWithChars cs ps

/-- Whether the pattern occurs somewhere in the text. -/
def includesChars : List Char → List Char → Bool
  | [], p => startsWithChars [] p
  | c :: cs, p => startsWithChars (c :: cs) p || includesChars cs p

/-- The method `s.includes(q)`. -/
def includes (s q : String) : Bool := includesChars s.data q.data

/-- Truthiness of a string: non-empty. -/
def strTruthy (s : String) : Bool := !(s == "")

/-! ## The host environment -/

/-- The engine- and machine-dependent built-ins the program calls. -/
structure Host where
  /-- The method `s.toLowerCase()`. -/
  toLowerCase : String → String
  /-- The time value of `new Date(s)`; `none` is `Invalid Date`. -/
  dateParse : String → Option Int
  /-- The getter `getFullYear()` of a valid date, in local time. -/
  getFullYear : Int → Int
  /-- The getter `getMonth()` of a valid date, in local time (0 to 11). -/
  getMonth : Int → Nat
  /-- The conversion `Number(s)` of a string. -/
  toNumber : String → JSNum
  /-- Lower-casing the empty string gives the empty string. -/
  toLowerCase_empty : toLowerCase "" = ""

/-- The comparison `a < b` of two dates: both are converted to their time
value, and a comparison with `NaN` is false. -/
def dateLt : Option Int → Option Int → Bool
  | some x, some y => decide (x < y)
  | _, _ => false

/-- The comparison `a > b` of two dates. -/
def dateGt (a b : Option Int) : Bool := dateLt b a

/-! ## Data model -/

/-- A transaction, as stored in `state.transactions`. -/
structure Transaction where
  id : String
  desc : String
  amount : JSNum
  type : String
  category : String
  date : String
  deriving DecidableEq

/-- The values of the filter controls `applyFilters` reads. -/
structure FilterControls where
  search : String
  filterCategory : String
  filterType : String
  fromDate : String
  toDate : String
  deriving DecidableEq

/-! ## Filtering (`applyFilters`, app.js 235-251) -/

/-- The callback of `txns.filter` in `applyFilters`, given the five locals
`q`, `cat`, `typ`, `from`, `to` (a `null` bound is `none`). -/
def filterKeeps (h : Host) (q cat typ : String) (dFrom dTo : Option (Option Int))
    (t : Transaction) : Bool :=
  let tDate := h.dateParse t.date
  if strTruthy q && !(includes (h.toLowerCase t.desc) q) then false
  else if strTruthy cat && t.category != cat then false
  else if strTruthy typ && t.type != typ then false
  else if (match dFrom with
           | some d => dateLt tDate d
           | none => false) then false
  else if (match dTo with
           | some d => dateGt tDate d
           | none => false) then false
  else true

/-- The function `applyFilters(txns)`. -/
def applyFilters (h : Host) (els : FilterControls) (txns : List Transaction) :
    List Transaction :=
  let q := h.toLowerCase (trim els.search)
  let cat := els.filterCategory
  let typ := els.filterType
  let dFrom := if strTruthy els.fromDate then some (h.dateParse els.fromDate) else none
  let dTo := if strTruthy els.toDate then some (h.dateParse els.toDate) else none
  txns.filter (filterKeeps h q cat typ dFrom dTo)

/-! ### The filter rules in the words of the specification -/

/-- One date is strictly earlier than another: both are valid and the
first time value is smaller. -/
def StrictlyEarlier : Option Int → Option Int → Prop
  | some x, some y => x < y
  | _, _ => False

instance : (a b : Option Int) → Decidable (StrictlyEarlier a b)
  | some x, some y => inferInstanceAs (Decidable (x < y))
  | none, _ => isFalse (fun h => h)
  | some _, none => isFalse (fun h => h)

/-- The text query of the filter: the content of the search box without the
surrounding white space. -/
def textQuery (els : FilterControls) : String := trim els.search

/-- The description contains the query, case-insensitively; skipped for an
empty query. -/
def TextRule (h : Host) (els : FilterControls) (t : Transaction) : Prop :=
  textQuery els = "" ∨
    includes (h.toLowerCase t.desc) (h.toLowerCase (textQuery els)) = true

/-- The category equals the category of the filter; skipped when empty. -/
def CategoryRule (els : FilterControls) (t : Transaction) : Prop :=
  els.filterCategory = "" ∨ t.category = els.filterCategory

/-- The kind equals the kind of the filter; skipped when empty. -/
def KindRule (els : FilterControls) (t : Transaction) : Prop :=
  els.filterType = "" ∨ t.type = els.filterType

/-- The date is not strictly earlier than the from-date; skipped when empty. -/
def FromRule (h : Host) (els : FilterControls) (t : Transaction) : Prop :=
  els.fromDate = "" ∨
    ¬ StrictlyEarlier (h.dateParse t.date) (h.dateParse els.fromDate)

/-- The date is not strictly later than the to-date; skipped when empty. -/
def ToRule (h : Host) (els : FilterControls) (t : Transaction) : Prop :=
  els.toDate = "" ∨
    ¬ StrictlyEarlier (h.dateParse els.toDate) (h.dateParse t.date)

/-- All the rules of the filter at once. -/
def SatisfiesAll (h : Host) (els : FilterControls) (t : Transaction) : Prop :=
  TextRule h els t ∧ CategoryRule els t ∧ KindRule els t ∧
    FromRule h els t ∧ ToRule h els t

instance (h : Host) (els : FilterControls) (t : Transaction) :
    Decidable (TextRule h els t) := by
  unfold TextRule
  infer_instance

instance (els : FilterControls) (t : Transaction) : Decidable (CategoryRule els t) := by
  unfold CategoryRule
  infer_instance

instance (els : FilterControls) (t : Transaction) : Decidable (KindRule els t) := by
  unfold KindRule
  infer_instance

instance (h : Host) (els : FilterControls) (t : Transaction) :
    Decidable (FromRule h els t) := by
  unfold FromRule
  infer_instance

instance (h : Host) (els : FilterControls) (t : Transaction) :
    Decidable (ToRule h els t) := by
  unfold ToRule
  infer_instance

instance (h : Host) (els : FilterControls) (t : Transaction) :
    Decidable (SatisfiesAll h els t) := by
  unfold SatisfiesAll
  infer_instance

/-! ## A concrete host

The host used for concrete evaluations. It reads the inputs a browser reads
the same way in every engine: ASCII letters for `toLowerCase`, the date-only
form `YYYY-MM-DD` of the ECMAScript date format (the value format of a date
control, read as UTC midnight), decimal literals for `Number`. Its local time
is UTC shifted by a fixed number of minutes. Inputs outside these forms are
not used in the evaluations below. -/

/-- Lower-casing of the ASCII letters. -/
def asciiLower (s : String) : String := ⟨s.data.map Char.toLower⟩

/-- The value of a decimal digit. -/
def digitVal (c : Char) : Option Nat :=
  if c.isDigit then some (c.toNat - 48) else none

/-- The value of a non-empty list of decimal digits. -/
def digitsVal : List Char → Option Nat
  | [] => none
  | cs => cs.foldl (fun acc c =>
      match acc, digitVal c with
      | some a, some d => some (10 * a + d)
      | _, _ => none) (some 0)

/-- The number of days from the epoch to the first day of year `y`
(ECMAScript `DayFromYear`). -/
def dayFromYear (y : Int) : Int :=
  365 * (y - 1970) + (y - 1969) / 4 - (y - 1901) / 100 + (y - 1601) / 400

/-- Whether `y` is a leap year. -/
def isLeapYear (y : Int) : Bool :=
  (y % 4 == 0 && y % 100 != 0) || y % 400 == 0

/-- The number of days of month `m` (1 to 12) of year `y`. -/
def daysInMonth (y : Int) (m : Nat) : Nat :=
  match m with
  | 2 => if isLeapYear y then 29 else 28
  | 4 => 30
  | 6 => 30
  | 9 => 30
  | 11 => 30
  | _ => 31

/-- The number of days of year `y` before its month `m` (1 to 12). -/
def daysBeforeMonth (y : Int) (m : Nat) : Nat :=
  ((List.range (m - 1)).map (fun i => daysInMonth y (i + 1))).sum

/-- The day number of the calendar date `y-m-d` (ECMAScript `MakeDay`). -/
def makeDay (y : Int) (m d : Nat) : Int :=
  dayFromYear y + daysBeforeMonth y m + (d - 1 : Nat)

/-- The milliseconds of one day. -/
def msPerDay : Int := 86400000

/-- The time value of a string of the form `YYYY-MM-DD` naming a calendar
date, read as UTC midnight; `none` for every other string. -/
def parseIsoDate (s : String) : Option Int :=
  match s.data with
  | [y1, y2, y3, y4, '-', m1, m2, '-', d1, d2] =>
    match digitsVal [y1, y2, y3, y4], digitsVal [m1, m2], digitsVal [d1, d2] with
    | some y, some m, some d =>
      if 1 ≤ m ∧ m ≤ 12 ∧ 1 ≤ d ∧ d ≤ daysInMonth y m then
        some (makeDay y m d * msPerDay)
      else none
    | _, _, _ => none
  | _ => none

/-- The year and the month (1 to 12) of a day number, in the proleptic
Gregorian calendar. -/
def civilFromDays (day : Int) : Int × Nat :=
  let z := day + 719468
  let era := z / 146097
  let doe := z - era * 146097
  let yoe := (doe - doe / 1460 + doe / 36524 - doe / 146096) / 365
  let doy := doe - (365 * yoe + yoe / 4 - yoe / 100)
  let mp := (5 * doy + 2) / 153
  let m := if mp < 10 then mp + 3 else mp - 9
  (if m ≤ 2 then yoe + era * 400 + 1 else yoe + era * 400, m.toNat)

/-- The local year of a time value, for a zone `tz` minutes ahead of UTC. -/
def localYear (tz : Int) (t : Int) : Int :=
  (civilFromDays ((t + tz * 60000) / msPerDay)).1

/-- The local month, 0 to 11, of a time value, for a zone `tz` minutes ahead
of UTC. -/
def localMonth (tz : Int) (t : Int) : Nat :=
  (civilFromDays ((t + tz * 60000) / msPerDay)).2 - 1

/-- The value of a signed decimal literal `[+-]digits[.digits]`, after
trimming: the double nearest to the number written; the empty string is `0`.
This host gives `NaN` for every other
string: it does not read exponents, `Infinity` or the `0x`, `0o` and `0b`
literals, which `Number` accepts and which no evaluation below uses. -/
def parseDecimal (s : String) : JSNum :=
  let cs := trimChars s.data
  if cs = [] then JSNum.fin 0 else
  let (neg, body) := match cs with
    | '-' :: r => (true, r)
    | '+' :: r => (false, r)
    | r => (false, r)
  let ip := body.takeWhile (fun c => c != '.')
  let rest := body.dropWhile (fun c => c != '.')
  let fp := rest.drop 1
  if (ip = [] ∧ fp = []) ∨ (rest = ['.'] ∧ ip = []) then JSNum.nan else
  match (if ip = [] then some 0 else digitsVal ip),
        (if fp = [] then some 0 else digitsVal fp) with
  | some i, some f =>
    let q : ℚ := (i : ℚ) + (f : ℚ) / (10 : ℚ) ^ fp.length
    roundDouble (if neg then -q else q)
  | _, _ => JSNum.nan

/-- The concrete host whose local time is `tz` minutes ahead of UTC. -/
def stdHost (tz : Int) : Host where
  toLowerCase := asciiLower
  dateParse := parseIsoDate
  getFullYear := localYear tz
  getMonth := localMonth tz
  toNumber := parseDecimal
  toLowerCase_empty := rfl

/-! ## Summary (`renderSummary`, app.js 254-267) -/

/-- What `renderSummary` shows: the three amounts (before currency
formatting) and the status line. -/
structure Summary where
  totalIncome : JSNum
  totalExpenses : JSNum
  balance : JSNum
  balanceSub : String
  deriving DecidableEq

/-- The function `renderSummary(txns)`. -/
def renderSummary (txns : List Transaction) : Summary :=
  let income := (txns.filter (fun t => t.type == "income")).foldl
    (fun a t => a.add t.amount) (JSNum.fin 0)
  let expenses := (txns.filter (fun t => t.type == "expense")).foldl
    (fun a t => a.add t.amount) (JSNum.fin 0)
  let balance := income.sub expenses
  { totalIncome := income
    totalExpenses := expenses
    balance := balance
    balanceSub :=
      if balance.ge (JSNum.fin 0) then "You are net positive" else "You are net negative" }

/-- The sum of a list of numbers: the numbers are added one after the other,
in list order, starting from `0`. -/
def sumNums (l : List JSNum) : JSNum := l.foldl JSNum.add (JSNum.fin 0)

/-- The amounts of the transactions of kind `k`, in list order. -/
def amountsOfKind (k : String) (txns : List Transaction) : List JSNum :=
  (txns.filter (fun t => decide (t.type = k))).map (fun t => t.amount)

/-- A number that is at least zero. -/
def AtLeastZero : JSNum → Prop
  | JSNum.fin q => 0 ≤ q
  | JSNum.inf => True
  | _ => False

/-! ## Objects used as maps

`aggregateByCategory` and `groupByMonthNet` accumulate into an object literal
`{}`. Such an object has its own properties, kept in creation order, and
inherits the properties of `Object.prototype`: reading a name that is not an
own property but is the name of an inherited one gives the inherited function
or object, and assigning a number to `__proto__` is ignored by its setter. -/

/-- A value read from or stored in such an object: a number, or a value that
is not a number (an inherited function or object, or the string obtained by
adding a number to one). A value of the second sort is truthy and `+` with it
concatenates strings. -/
inductive JSVal where
  | num (a : JSNum) : JSVal
  | text : JSVal
  deriving DecidableEq

/-- An object: its own properties in creation order. -/
abbrev JSObj := List (String × JSVal)

/-- The names of the properties of `Object.prototype`. -/
def protoNames : List String :=
  ["constructor", "__defineGetter__", "__defineSetter__", "hasOwnProperty",
   "__lookupGetter__", "__lookupSetter__", "isPrototypeOf", "propertyIsEnumerable",
   "toString", "valueOf", "__proto__", "toLocaleString"]

/-- The own property `k` of an object, if there is one. -/
def ownGet : JSObj → String → Option JSVal
  | [], _ => none
  | (k', v) :: rest, k => if k' = k then some v else ownGet rest k

/-- The expression `o[k]`; `none` is `undefined`. -/
def objGet (o : JSObj) (k : String) : Option JSVal :=
  match ownGet o k with
  | some v => some v
  | none => if k ∈ protoNames then some JSVal.text else none

/-- Create or overwrite the own property `k`. -/
def ownSet : JSObj → String → JSVal → JSObj
  | [], k, v => [(k, v)]
  | (k', v') :: rest, k, v =>
    if k' = k then (k', v) :: rest else (k', v') :: ownSet rest k v

/-- The assignment `o[k] = v` of a number or string `v`. -/
def objSet (o : JSObj) (k : String) (v : JSVal) : JSObj :=
  if k = "__proto__" then o else ownSet o k v

/-- The expression `x || 0` for a property read `x`. -/
def orZeroVal : Option JSVal → JSVal
  | none => JSVal.num (JSNum.fin 0)
  | some (JSVal.num a) => JSVal.num a.orZero
  | some JSVal.text => JSVal.text

/-- The expression `x + a` for a number `a`. -/
def JSVal.addNum : JSVal → JSNum → JSVal
  | JSVal.num x, a => JSVal.num (x.add a)
  | JSVal.text, _ => JSVal.text

/-- The expression `x + y`. -/
def JSVal.add : JSVal → JSVal → JSVal
  | JSVal.num x, JSVal.num y => JSVal.num (x.add y)
  | _, _ => JSVal.text

/-- The own property names of an object, in creation order. -/
def ownKeys (o : JSObj) : List String := o.map (fun p => p.1)

/-- The sum of the values of an object, added up from `0`. -/
def sumValues (o : JSObj) : JSVal :=
  o.foldl (fun acc p => acc.add p.2) (JSVal.num (JSNum.fin 0))

/-! ## Aggregation by category (`aggregateByCategory`, app.js 375-380) -/

/-- The function `aggregateByCategory(txns)`. -/
def aggregateByCategory (txns : List Transaction) : JSObj :=
  txns.foldl (fun acc t =>
    objSet acc t.category ((orZeroVal (objGet acc t.category)).addNum t.amount)) []

/-- The amounts of the transactions of category `c`, in list order. -/
def amountsOfCategory (c : String) (txns : List Transaction) : List JSNum :=
  (txns.filter (fun t => decide (t.category = c))).map (fun t => t.amount)

/-! ## Monthly net (`groupByMonthNet`, app.js 381-392) -/

/-- The method `s.padStart(2, "0")`. -/
def padStart2 (s : String) : String :=
  ⟨List.replicate (2 - s.length) '0' ++ s.data⟩

/-- The key computed for a date string:
`${d.getFullYear()}-${String(d.getMonth() + 1).padStart(2, "0")}` with
`d = new Date(date)`; the getters of an invalid date give `NaN`. -/
def monthKey (h : Host) (date : String) : String :=
  match h.dateParse date with
  | some tv => toString (h.getFullYear tv) ++ "-" ++ padStart2 (toString (h.getMonth tv + 1))
  | none => "NaN" ++ "-" ++ padStart2 "NaN"

/-- The amount a transaction adds to its month: `t.amount` for an income,
`-t.amount` for everything else. -/
def signedAmount (t : Transaction) : JSNum :=
  if t.type == "income" then t.amount else t.amount.neg

/-- The function `groupByMonthNet(txns)`. -/
def groupByMonthNet (h : Host) (txns : List Transaction) : JSObj :=
  txns.foldl (fun map t =>
    let key := monthKey h t.date
    objSet map key ((orZeroVal (objGet map key)).addNum
      (if t.type == "income" then t.amount else t.amount.neg))) []

/-! ### Months in the words of the specification -/

/-- A year of four digits, written out. -/
def fourDigits (y : Nat) : String :=
  ⟨[Nat.digitChar (y / 1000 % 10), Nat.digitChar (y / 100 % 10),
    Nat.digitChar (y / 10 % 10), Nat.digitChar (y % 10)]⟩

/-- A month or a day, zero-padded to two digits. -/
def twoDigits (n : Nat) : String :=
  ⟨[Nat.digitChar (n / 10 % 10), Nat.digitChar (n % 10)]⟩

/-- The date string `YYYY-MM-DD` of a calendar date. -/
def isoString (y m d : Nat) : String :=
  fourDigits y ++ "-" ++ twoDigits m ++ "-" ++ twoDigits d

/-- The month `YYYY-MM` written in a date string: its first seven characters. -/
def writtenMonth (date : String) : String := ⟨date.data.take 7⟩

/-- The host reads a date string back as written: the string is `YYYY-MM-DD`
with a year of four digits from 1000 on, it parses to a valid date, and the
local year and month of that date are the year and the month of the string. -/
def ReadsBack (h : Host) (date : String) : Prop :=
  ∃ (y m d : Nat) (tv : Int), 1000 ≤ y ∧ y ≤ 9999 ∧ 1 ≤ m ∧ m ≤ 12 ∧
    date = isoString y m d ∧ h.dateParse date = some tv ∧
    h.getFullYear tv = (y : Int) ∧ h.getMonth tv + 1 = m

/-- The amounts of the income transactions dated in month `k`. -/
def monthIncome (k : String) (txns : List Transaction) : List JSNum :=
  (txns.filter (fun t => decide (writtenMonth t.date = k ∧ t.type = "income"))).map
    (fun t => t.amount)

/-- The amounts of the transactions of any other kind dated in month `k`. -/
def monthOther (k : String) (txns : List Transaction) : List JSNum :=
  (txns.filter (fun t => decide (writtenMonth t.date = k ∧ t.type ≠ "income"))).map
    (fun t => t.amount)

/-- The amounts of the transactions dated in month `k`, in list order, an
income counted as it is and every other kind with its sign changed. -/
def monthSigned (k : String) (txns : List Transaction) : List JSNum :=
  (txns.filter (fun t => decide (writtenMonth t.date = k))).map signedAmount

/-- The amounts of the expense transactions dated in month `k`. -/
def monthExpense (k : String) (txns : List Transaction) : List JSNum :=
  (txns.filter (fun t => decide (writtenMonth t.date = k ∧ t.type = "expense"))).map
    (fun t => t.amount)

/-! ## CSV import (`parseCSV`, `mergeTransactions`, app.js 413-436) -/

/-- The method `s.split(/\r?\n/)` on characters; `cur` holds the current
piece, reversed. -/
def splitLinesAux : List Char → List Char → List (List Char)
  | [], cur => [cur.reverse]
  | '\r' :: '\n' :: rest, cur => cur.reverse :: splitLinesAux rest []
  | '\n' :: rest, cur => cur.reverse :: splitLinesAux rest []
  | c :: rest, cur => splitLinesAux rest (c :: cur)

/-- The method `s.split(/\r?\n/)`. -/
def splitLines (s : String) : List String :=
  (splitLinesAux s.data []).map String.mk

/-- The method `s.split(",")` on characters; `cur` holds the current piece,
reversed. -/
def splitCommaAux : List Char → List Char → List (List Char)
  | [], cur => [cur.reverse]
  | c :: rest, cur =>
    if c = ',' then cur.reverse :: splitCommaAux rest [] else splitCommaAux rest (c :: cur)

/-- The method `s.split(",")`. -/
def splitComma (s : String) : List String :=
  (splitCommaAux s.data []).map String.mk

/-- The body of the loop of `parseCSV` for one line, `txns` being the rows
pushed so far; the identifier of a new row is the next value of the
generator `uuid`, which stands for `crypto.randomUUID()`. -/
def parseCSVLine (h : Host) (uuid : Nat → String) (txns : List Transaction)
    (line : String) : List Transaction :=
  let parts := (splitComma line).map trim
  if parts.length < 5 then txns
  else
    match parts with
    | desc :: amount :: type :: category :: date :: _ =>
      txns ++ [{ id := uuid txns.length, desc := desc, amount := h.toNumber amount,
                 type := type, category := category, date := date }]
    | _ => txns

/-- The function `parseCSV(text)`. -/
def parseCSV (h : Host) (uuid : Nat → String) (text : String) : List Transaction :=
  let lines := splitLines (trim text)
  (lines.drop 1).foldl (parseCSVLine h uuid) []

/-- The function `mergeTransactions(existing, incoming)`. -/
def mergeTransactions (existing incoming : List Transaction) : List Transaction :=
  existing ++ incoming

/-- The CSV branch of the import handler (app.js 185-188): the new value of
`state.transactions`. -/
def importCSV (h : Host) (uuid : Nat → String) (transactions : List Transaction)
    (text : String) : List Transaction :=
  mergeTransactions transactions (parseCSV h uuid text)

/-! ### CSV rows in the words of the specification -/

/-- The comma-separated fields of a line, each without surrounding white
space. -/
def csvFields (line : String) : List String := (splitComma line).map trim

/-- The lines of the file after the first (header) line, the file being
taken without its leading and trailing white space. -/
def csvDataLines (text : String) : List String := (splitLines (trim text)).drop 1

/-- The lines after the header that have at least 5 fields. -/
def csvFullLines (text : String) : List String :=
  (csvDataLines text).filter (fun l => decide (5 ≤ (csvFields l).length))

/-- The transaction of a line: description, amount, kind, category and date
from the fields 1 to 5. -/
def csvRow (h : Host) (id : String) (line : String) : Transaction :=
  { id := id
    desc := (csvFields line).getD 0 ""
    amount := h.toNumber ((csvFields line).getD 1 "")
    type := (csvFields line).getD 2 ""
    category := (csvFields line).getD 3 ""
    date := (csvFields line).getD 4 "" }

/-- One transaction per line with at least 5 fields, in file order; the
`i`-th one carries the `i`-th generated identifier, counted from `start`. -/
def csvRowsFrom (h : Host) (uuid : Nat → String) : Nat → List String → List Transaction
  | _, [] => []
  | start, l :: ls => csvRow h (uuid start) l :: csvRowsFrom h uuid (start + 1) ls

/-! ## Adding and editing a transaction (app.js 114-129 and 478-489) -/

/-- The values of the controls of the add form. -/
structure TxnForm where
  desc : String
  amount : String
  type : String
  category : String
  date : String
  deriving DecidableEq

/-- The submit handler of the add form: the new value of
`state.transactions`; `id` is the result of `crypto.randomUUID()`. -/
def submitTxn (h : Host) (id : String) (form : TxnForm)
    (transactions : List Transaction) : List Transaction :=
  let txn : Transaction :=
    { id := id
      desc := trim form.desc
      amount := h.toNumber form.amount
      type := form.type
      category := form.category
      date := form.date }
  if !strTruthy txn.desc || !txn.amount.truthy || !strTruthy txn.date then transactions
  else transactions ++ [txn]

/-- The values of the controls of the edit dialog. -/
structure EditForm where
  edDesc : String
  edAmount : String
  edType : String
  edCat : String
  edDate : String
  deriving DecidableEq

/-- The assignments of the save handler of the edit dialog to the
transaction being edited. -/
def applyEdit (h : Host) (form : EditForm) (txn : Transaction) : Transaction :=
  { txn with
    desc := trim form.edDesc
    amount := h.toNumber form.edAmount
    type := form.edType
    category := form.edCat
    date := form.edDate }

/-- Replace the first transaction with the given identifier, the one
`state.transactions.find((t) => t.id === id)` returns, by its image. -/
def updateFirst (id : String) (f : Transaction → Transaction) :
    List Transaction → List Transaction
  | [] => []
  | t :: ts => if t.id == id then f t :: ts else t :: updateFirst id f ts

/-- The edit of the transaction `id` (`openEditDialog` and its save handler):
the new value of `state.transactions`. Without a transaction of that
identifier the dialog does not open and nothing changes. -/
def saveEdit (h : Host) (id : String) (form : EditForm)
    (transactions : List Transaction) : List Transaction :=
  updateFirst id (applyEdit h form) transactions

/-! ## JSON export and import (app.js 170-177 and 180-204)

The import assigns what `JSON.parse` returns without looking inside, so the
state it leaves holds arbitrary parsed values. `Val` is the type of these
values and of the values the export serialises. A JSON text is represented by
what `JSON.parse` makes of it: `none` when the parse throws, the parsed value
otherwise. -/

/-- A value in memory: `null`, a boolean, a number, a string, an array, or a
plain object given by its properties in enumeration order. -/
inductive Val where
  | null : Val
  | bool (b : Bool) : Val
  | num (a : JSNum) : Val
  | str (s : String) : Val
  | arr (items : List Val) : Val
  | obj (props : List (String × Val)) : Val

mutual
/-- The value `JSON.parse(JSON.stringify(v))`: the same value with every
number that JSON cannot write (`NaN` and the infinities) replaced by `null`. -/
def Val.clone : Val → Val
  | Val.null => Val.null
  | Val.bool b => Val.bool b
  | Val.num JSNum.nan => Val.null
  | Val.num JSNum.inf => Val.null
  | Val.num JSNum.ninf => Val.null
  | Val.num (JSNum.fin q) => Val.num (JSNum.fin q)
  | Val.str s => Val.str s
  | Val.arr items => Val.arr (Val.cloneList items)
  | Val.obj props => Val.obj (Val.cloneProps props)
/-- The clone of the items of an array. -/
def Val.cloneList : List Val → List Val
  | [] => []
  | v :: vs => v.clone :: Val.cloneList vs
/-- The clone of the properties of an object. -/
def Val.cloneProps : List (String × Val) → List (String × Val)
  | [] => []
  | (k, v) :: ps => (k, v.clone) :: Val.cloneProps ps
end

mutual
/-- Whether JSON can write the value as it is: no `NaN` and no infinity
inside. -/
def Val.jsonSafe : Val → Bool
  | Val.null => true
  | Val.bool _ => true
  | Val.num JSNum.nan => false
  | Val.num JSNum.inf => false
  | Val.num JSNum.ninf => false
  | Val.num (JSNum.fin _) => true
  | Val.str _ => true
  | Val.arr items => Val.jsonSafeList items
  | Val.obj props => Val.jsonSafeProps props
/-- Whether JSON can write every item as it is. -/
def Val.jsonSafeList : List Val → Bool
  | [] => true
  | v :: vs => v.jsonSafe && Val.jsonSafeList vs
/-- Whether JSON can write every property value as it is. -/
def Val.jsonSafeProps : List (String × Val) → Bool
  | [] => true
  | (_, v) :: ps => v.jsonSafe && Val.jsonSafeProps ps
end

/-- The function `Array.isArray`. -/
def Val.isArray : Val → Bool
  | Val.arr _ => true
  | _ => false

/-- The test `v && typeof v === "object"`: an array or an object. -/
def Val.isObjectLike : Val → Bool
  | Val.arr _ => true
  | Val.obj _ => true
  | _ => false

/-- The own property `k` among the properties of an object. -/
def Val.lookup : List (String × Val) → String → Option Val
  | [], _ => none
  | (k', v) :: ps, k => if k' = k then some v else Val.lookup ps k

/-- The property read `v.transactions` or `v.budgets` on a parsed value:
`none` when the read throws (the value is `null`), `some none` when it gives
`undefined` (no prototype has a property of these names), `some (some x)` for
an own property. -/
def Val.getProp : Val → String → Option (Option Val)
  | Val.null, _ => none
  | Val.obj props, k => some (Val.lookup props k)
  | _, _ => some none

/-- The part of `state` the import and the export touch. -/
structure AppState where
  transactions : Val
  budgets : Val

/-- What the import handler leaves: the state, and whether the `catch` branch
ran (an exception of `JSON.parse` or of the read of `obj.transactions`; the
calls of `save` and `refresh` that follow the assignments are not
represented). -/
structure ImportResult where
  state : AppState
  failed : Bool

/-- The JSON branch of the import handler (app.js 190-196) on the content of
the file. -/
def importJSON (content : Option Val) (state : AppState) : ImportResult :=
  match content with
  | none => { state := state, failed := true }
  | some obj =>
    match obj.getProp "transactions" with
    | none => { state := state, failed := true }
    | some txs =>
      let s1 : AppState :=
        match txs with
        | some v => if v.isArray then { state with transactions := v } else state
        | none => state
      let s2 : AppState :=
        match obj.getProp "budgets" with
        | some (some b) => if b.isObjectLike then { s1 with budgets := b } else s1
        | _ => s1
      { state := s2, failed := false }

/-- The object the export handler builds (app.js 171-175); `exportedAt` is
the result of `new Date().toISOString()`. -/
def exportData (state : AppState) (exportedAt : String) : Val :=
  Val.obj [("transactions", state.transactions), ("budgets", state.budgets),
    ("exportedAt", Val.str exportedAt)]

/-- The content of the exported file as an import reads it:
`JSON.parse` of `JSON.stringify(data, null, 2)`. -/
def exportFile (state : AppState) (exportedAt : String) : Option Val :=
  some (exportData state exportedAt).clone

/-- A transaction as a value: the object literal of app.js 116-123. -/
def Transaction.toVal (t : Transaction) : Val :=
  Val.obj [("id", Val.str t.id), ("desc", Val.str t.desc), ("amount", Val.num t.amount),
    ("type", Val.str t.type), ("category", Val.str t.category), ("date", Val.str t.date)]

/-- The state holding a transaction list and a budget map. -/
def AppState.ofLists (txns : List Transaction) (budgets : List (String × JSNum)) : AppState :=
  { transactions := Val.arr (txns.map Transaction.toVal)
    budgets := Val.obj (budgets.map (fun e => (e.1, Val.num e.2))) }

/-- The content of a file fails to import: the text does not parse, or it
parses to a value from which the field `transactions` cannot be read. -/
def FailsToImport (content : Option Val) : Prop :=
  content = none ∨ content = some Val.null

/-! ## The category chart (`renderCategoryChart`, app.js 354-363) -/

/-- The number a property name stands for when the name is an array index:
the canonical decimal writing of an integer from 0 to 2^32 - 2. -/
def arrayIndex (k : String) : Option Nat :=
  match digitsVal k.data with
  | some n => if toString n = k ∧ n ≤ 4294967294 then some n else none
  | none => none

/-- Whether a property name is an array index. -/
def isArrayIndex (k : String) : Bool := (arrayIndex k).isSome

/-- The function `Object.keys(o)`: the own property names that are array
indices in ascending numeric order, then the other names in creation order. -/
def objectKeys (o : JSObj) : List String :=
  ((ownKeys o).filter isArrayIndex).insertionSort
      (fun a b => (arrayIndex a).getD 0 ≤ (arrayIndex b).getD 0)
    ++ (ownKeys o).filter (fun k => !isArrayIndex k)

/-- The labels and the data `renderCategoryChart(txns)` gives to the chart. -/
def renderCategoryChart (txns : List Transaction) : List String × List (Option JSVal) :=
  let spendByCat := aggregateByCategory (txns.filter (fun t => t.type == "expense"))
  let labels := objectKeys spendByCat
  (labels, labels.map (fun k => objGet spendByCat k))

/-- Add a name to the names seen so far, at the end, unless it is there. -/
def addSeen (seen : List String) (x : String) : List String :=
  if x ∈ seen then seen else seen ++ [x]

/-- The names of a list in the order in which they are first seen. -/
def firstSeen (l : List String) : List String := l.foldl addSeen []

/-! ## The table footer (`renderTable`, app.js 270-309) -/

/-- The array `renderTable(txns)` leaves behind: it sorts a non-empty `txns`
in place with the comparator `new Date(b.date) - new Date(a.date)`, and the
renderers called after it in `refresh` receive the sorted array. The argument
`sort` stands for `Array.prototype.sort` with this comparator. -/
def tableOrder (sort : List Transaction → List Transaction) (txns : List Transaction) :
    List Transaction :=
  if txns.length = 0 then txns else sort txns

/-- The footer of the table: the number of transactions and the net total. -/
structure TableFooter where
  count : Nat
  total : JSNum
  deriving DecidableEq

/-- The footer `renderTable(txns)` shows (app.js 302-306), computed on the
array after the sort. -/
def renderTableFooter (sort : List Transaction → List Transaction)
    (txns : List Transaction) : TableFooter :=
  let sorted := tableOrder sort txns
  { count := sorted.length
    total := sorted.foldl
      (fun a t => a.add (if t.type == "income" then t.amount else t.amount.neg))
      (JSNum.fin 0) }

/-- Whether the date of `a` is not earlier than the date of `b`; true as soon
as one of the two dates is invalid (the comparator gives `NaN`, read as 0). -/
def notEarlier (h : Host) (a b : Transaction) : Bool :=
  match h.dateParse a.date, h.dateParse b.date with
  | some x, some y => decide (y ≤ x)
  | _, _ => true

/-- A sort by date, latest first, that keeps the order of equal dates: what
`sort` gives for the comparator of `renderTable` when the dates are valid. -/
def sortByDateDesc (h : Host) (txns : List Transaction) : List Transaction :=
  txns.insertionSort (fun a b => notEarlier h a b = true)

/-- The amounts of the transactions of a kind other than `k`, in list order. -/
def amountsNotOfKind (k : String) (txns : List Transaction) : List JSNum :=
  (txns.filter (fun t => decide (t.type ≠ k))).map (fun t => t.amount)

/-! ### Auxiliary notions for the proofs about sums and objects -/

/-- The sum of the magnitudes of a list of numbers. -/
def absSum (l : List JSNum) : ℚ := (l.map (fun a => |a.val|)).sum

/-- The exact sum of the values of a list of numbers. -/
def exactSum (l : List JSNum) : ℚ := (l.map JSNum.val).sum

/-- The amounts are whole numbers whose magnitudes add up to less than 2^53:
every sum of some of them is a double, so no addition rounds. -/
def WholeAmounts (l : List JSNum) : Prop :=
  (∀ a ∈ l, a.IsWhole) ∧ absSum l < 2 ^ 53

/-- Every own value of the object is a number that is not `NaN`. -/
def Clean (o : JSObj) : Prop := ∀ p ∈ o, ∃ a : JSNum, a ≠ JSNum.nan ∧ p.2 = JSVal.num a

/-- The number stored under the own name `k`, `0` when there is none. -/
def valN (o : JSObj) (k : String) : JSNum :=
  match ownGet o k with
  | some (JSVal.num a) => a
  | _ => JSNum.fin 0

/-- The number of a stored value, `NaN` for the others. -/
def numOf : JSVal → JSNum
  | JSVal.num a => a
  | JSVal.text => JSNum.nan

/-- The stored values of an object as numbers, in creation order. -/
def objVals (o : JSObj) : List JSNum := o.map (fun p => numOf p.2)

/-- The accumulation step shared by `aggregateByCategory` and
`groupByMonthNet`: `acc[key] = (acc[key] || 0) + amt`. -/
def accumStep (key : Transaction → String) (amt : Transaction → JSNum)
    (acc : JSObj) (t : Transaction) : JSObj :=
  objSet acc (key t) ((orZeroVal (objGet acc (key t))).addNum (amt t))

/-- The amounts `amt` of the transactions whose key is `c`, in list order. -/
def amountsAt (key : Transaction → String) (amt : Transaction → JSNum) (c : String)
    (txns : List Transaction) : List JSNum :=
  (txns.filter (fun t => decide (key t = c))).map amt

/-! ## Budgets (`renderBudgets`, app.js 330-351) -/

/-- The sign of a number that is not `NaN`: 1, 0 or -1. -/
def JSNum.sign : JSNum → ℤ
  | JSNum.fin a => if 0 < a then 1 else if a < 0 then -1 else 0
  | JSNum.inf => 1
  | JSNum.ninf => -1
  | JSNum.nan => 0

/-- The infinity of a sign, `NaN` for the sign 0. -/
def JSNum.ofSign (s : ℤ) : JSNum :=
  if 0 < s then JSNum.inf else if s < 0 then JSNum.ninf else JSNum.nan

/-- The operator `a / b` on numbers. A zero divisor is taken as `+0`. -/
def JSNum.div (a b : JSNum) : JSNum :=
  match a, b with
  | JSNum.nan, _ => JSNum.nan
  | _, JSNum.nan => JSNum.nan
  | JSNum.fin x, JSNum.fin y => if y = 0 then JSNum.ofSign a.sign else roundDouble (x / y)
  | JSNum.fin _, _ => JSNum.fin 0
  | _, JSNum.fin y => JSNum.ofSign (a.sign * (if y < 0 then -1 else 1))
  | _, _ => JSNum.nan

/-- The operator `a * b` on numbers. -/
def JSNum.mul (a b : JSNum) : JSNum :=
  match a, b with
  | JSNum.nan, _ => JSNum.nan
  | _, JSNum.nan => JSNum.nan
  | JSNum.fin x, JSNum.fin y => roundDouble (x * y)
  | _, _ => JSNum.ofSign (a.sign * b.sign)

/-- The function `Math.round`: the nearest integer, a half rounding up. It is
computed exactly on the double it receives. -/
def mathRound : JSNum → JSNum
  | JSNum.fin a => JSNum.fin (⌊a + 1 / 2⌋ : ℤ)
  | a => a

/-- The function `Math.min` of two numbers. -/
def mathMin : JSNum → JSNum → JSNum
  | JSNum.nan, _ => JSNum.nan
  | _, JSNum.nan => JSNum.nan
  | JSNum.fin a, JSNum.fin b => JSNum.fin (min a b)
  | JSNum.ninf, _ => JSNum.ninf
  | _, JSNum.ninf => JSNum.ninf
  | JSNum.inf, b => b
  | a, JSNum.inf => a

/-- The conversion of a stored value to a number by an arithmetic operator. -/
def JSVal.toNum : JSVal → JSNum
  | JSVal.num a => a
  | JSVal.text => JSNum.nan

/-- The expression for `pct` in `renderBudgets`:
`limit > 0 ? Math.min(100, Math.round((used / limit) * 100)) : 0`. -/
def budgetPct (used : JSVal) (limit : JSNum) : JSNum :=
  if limit.gt (JSNum.fin 0) then
    mathMin (JSNum.fin 100) (mathRound ((used.toNum.div limit).mul (JSNum.fin 100)))
  else JSNum.fin 0

/-- One rendered budget line: category, used amount, limit and percentage. -/
structure BudgetItem where
  cat : String
  used : JSVal
  limit : JSNum
  pct : JSNum
  deriving DecidableEq

/-- The function `renderBudgets(txns)`, given `state.budgets` as the list of
its entries: one line per budget entry. -/
def renderBudgets (budgets : List (String × JSNum)) (txns : List Transaction) :
    List BudgetItem :=
  let spendByCat := aggregateByCategory (txns.filter (fun t => t.type == "expense"))
  budgets.map (fun e =>
    let used := orZeroVal (objGet spendByCat e.1)
    { cat := e.1, used := used, limit := e.2, pct := budgetPct used e.2 })

/-! ## Concrete data -/

/-- Two food expenses, the first with the amount `NaN`. -/
def nanTxns : List Transaction :=
  [ { id := "a", desc := "x", amount := JSNum.nan, type := "expense",
      category := "Food", date := "2024-01-05" },
    { id := "b", desc := "y", amount := JSNum.fin 5, type := "expense",
      category := "Food", date := "2024-01-06" } ]

/-- One transaction of a kind that is neither income nor expense. -/
def transferTxns : List Transaction :=
  [ { id := "a", desc := "To savings", amount := JSNum.fin 10, type := "transfer",
      category := "Savings", date := "2024-01-05" } ]

/-- One income dated on the first day of February 2024. -/
def februaryTxns : List Transaction :=
  [ { id := "a", desc := "Fee", amount := JSNum.fin 10, type := "income",
      category := "Business", date := "2024-02-01" } ]

/-- One income dated in January of the year 999. -/
def earlyTxns : List Transaction :=
  [ { id := "a", desc := "Fee", amount := JSNum.fin 10, type := "income",
      category := "Business", date := "0999-01-05" } ]

/-- A CSV file: a header line and the lunch row of the scenario. -/
def lunchCsv : String :=
  "description,amount,kind,category,date\nLunch,45,expense,Food,2024-03-01"

/-- A CSV file with a short line, a repeated row and surrounding blank lines. -/
def mixedCsv : String :=
  "\n desc,amount,type,category,date\r\nLunch, 45 ,expense,Food,2024-03-01\nbroken,1,2\n" ++
  "Lunch,45,expense,Food,2024-03-01\r\nBus,3.5,expense,Transport,2024-03-02,extra\n\n"

/-- The identifiers generated in the concrete evaluations: `id0`, `id1`, ... -/
def testUuid (n : Nat) : String := "id" ++ toString n

/-- One transaction whose date string is not a date. -/
def undatedTxns : List Transaction :=
  [ { id := "a", desc := "Lunch", amount := JSNum.fin 45, type := "expense",
      category := "Food", date := "unknown" } ]

/-- An add form with a negative amount. -/
def negativeForm : TxnForm :=
  { desc := "Refund", amount := "-5", type := "expense", category := "Food",
    date := "2024-03-01" }

/-- An add form with the amount zero. -/
def zeroForm : TxnForm :=
  { desc := "Lunch", amount := "0", type := "expense", category := "Food",
    date := "2024-03-01" }

/-- An edit with an empty description, a negative amount and no date. -/
def badEdit : EditForm :=
  { edDesc := "  ", edAmount := "-3", edType := "expense", edCat := "Rent", edDate := "" }

/-- Two expenses, the second in a category whose name is a number. -/
def numberedTxns : List Transaction :=
  [ { id := "a", desc := "Lunch", amount := JSNum.fin 45, type := "expense",
      category := "Food", date := "2024-03-01" },
    { id := "b", desc := "Bus", amount := JSNum.fin 3, type := "expense",
      category := "7", date := "2024-03-02" } ]

/-- Two expenses, the first in the category `__proto__`. -/
def protoKeyTxns : List Transaction :=
  [ { id := "a", desc := "Lunch", amount := JSNum.fin 45, type := "expense",
      category := "__proto__", date := "2024-03-01" },
    { id := "b", desc := "Bus", amount := JSNum.fin 3, type := "expense",
      category := "Transport", date := "2024-03-02" } ]

/-- Two expenses of January 2024, latest first, the first with the amount
`NaN`. -/
def nanLatestTxns : List Transaction :=
  [ { id := "a", desc := "x", amount := JSNum.nan, type := "expense",
      category := "Food", date := "2024-01-06" },
    { id := "b", desc := "y", amount := JSNum.fin 5, type := "expense",
      category := "Food", date := "2024-01-05" } ]

/-- The double nearest to a decimal fraction, as a numeric literal of that
writing denotes it. -/
def dbl (q : ℚ) : JSNum := roundDouble q

/-- Three expenses with the amounts 0.1, 0.1 and 1.1 in the categories Food,
Rent, Food. -/
def tenthsTxns : List Transaction :=
  [ { id := "a", desc := "Bread", amount := dbl (1 / 10), type := "expense",
      category := "Food", date := "2024-01-03" },
    { id := "b", desc := "Key", amount := dbl (1 / 10), type := "expense",
      category := "Rent", date := "2024-01-02" },
    { id := "c", desc := "Milk", amount := dbl (11 / 10), type := "expense",
      category := "Food", date := "2024-01-01" } ]

/-- An income of 0.2, an expense of 0.9 and an income of 0.7 in January 2024,
latest first. -/
def mixedTenthsTxns : List Transaction :=
  [ { id := "a", desc := "Tip", amount := dbl (2 / 10), type := "income",
      category := "Business", date := "2024-01-03" },
    { id := "b", desc := "Bus", amount := dbl (9 / 10), type := "expense",
      category := "Transport", date := "2024-01-02" },
    { id := "c", desc := "Tip", amount := dbl (7 / 10), type := "income",
      category := "Business", date := "2024-01-01" } ]

/-- An income of 0.3 and expenses of 0.1 and 0.2. -/
def balancedTenthsTxns : List Transaction :=
  [ { id := "a", desc := "Tip", amount := dbl (3 / 10), type := "income",
      category := "Business", date := "2024-01-03" },
    { id := "b", desc := "Bus", amount := dbl (1 / 10), type := "expense",
      category := "Transport", date := "2024-01-02" },
    { id := "c", desc := "Bus", amount := dbl (2 / 10), type := "expense",
      category := "Transport", date := "2024-01-01" } ]

/-- The budgets of `defaultBudgets()`. -/
def defaultBudgets : List (String × JSNum) :=
  [("Food", JSNum.fin 800), ("Transport", JSNum.fin 500), ("Rent", JSNum.fin 1500),
   ("Utilities", JSNum.fin 600), ("Savings", JSNum.fin 1000), ("Business", JSNum.fin 0),
   ("Salary", JSNum.fin 0), ("Misc", JSNum.fin 300)]

/-- One expense in a category named like a property of `Object.prototype`. -/
def protoTxns : List Transaction :=
  [ { id := "a", desc := "x", amount := JSNum.fin 5, type := "expense",
      category := "constructor", date := "2024-01-05" } ]


/-- The scenario list of the specification: a salary, a rent and a food entry. -/
def scenarioTxns : List Transaction :=
  [ { id := "a", desc := "Salary", amount := JSNum.fin 4500, type := "income",
      category := "Salary", date := "2024-01-05" },
    { id := "b", desc := "Rent", amount := JSNum.fin 1200, type := "expense",
      category := "Rent", date := "2024-01-10" },
    { id := "c", desc := "Food", amount := JSNum.fin 230, type := "expense",
      category := "Food", date := "2024-02-01" } ]

/-- The filter of the scenario: January 2024, both bounds set. -/
def scenarioFilter : FilterControls :=
  { search := "", filterCategory := "", filterType := "",
    fromDate := "2024-01-01", toDate := "2024-01-31" }

/-! # Theorems -/

/-! ## Strings and dates -/

theorem strTruthy_iff (s : String) : strTruthy s = true ↔ s ≠ "" := by
  simp [strTruthy]

theorem strTruthy_empty : strTruthy "" = false := by
  simp [strTruthy]

theorem startsWithChars_nil (l : List Char) : startsWithChars l [] = true := by
  cases l <;> rfl

theorem includesChars_nil (l : List Char) : includesChars l [] = true := by
  cases l with
  | nil => rfl
  | cons c cs => simp [includesChars, startsWithChars_nil]

theorem includes_empty (s : String) : includes s "" = true := by
  simp [includes, includesChars_nil]

theorem dateLt_iff (a b : Option Int) : dateLt a b = true ↔ StrictlyEarlier a b := by
  cases a <;> cases b <;> simp [dateLt, StrictlyEarlier]

theorem not_strictlyEarlier_self (a : Option Int) : ¬ StrictlyEarlier a a := by
  cases a <;> simp [StrictlyEarlier]

/-! ## Filtering -/

/-- The callback of `applyFilters` keeps a transaction exactly when the
transaction satisfies every rule of the specification. -/
theorem filterKeeps_iff (h : Host) (els : FilterControls) (t : Transaction) :
    filterKeeps h (h.toLowerCase (trim els.search)) els.filterCategory els.filterType
        (if strTruthy els.fromDate then some (h.dateParse els.fromDate) else none)
        (if strTruthy els.toDate then some (h.dateParse els.toDate) else none) t = true
      ↔ SatisfiesAll h els t := by
  have hq : (strTruthy (h.toLowerCase (trim els.search)) = true ∧
        includes (h.toLowerCase t.desc) (h.toLowerCase (trim els.search)) = false)
      ↔ ¬ TextRule h els t := by
    unfold TextRule textQuery
    constructor
    · rintro ⟨h1, h2⟩ h3
      rcases h3 with h3 | h3
      · rw [h3, h.toLowerCase_empty] at h1
        simp [strTruthy] at h1
      · rw [h2] at h3
        exact Bool.noConfusion h3
    · intro h3
      have h4 : includes (h.toLowerCase t.desc) (h.toLowerCase (trim els.search)) = false := by
        cases hc : includes (h.toLowerCase t.desc) (h.toLowerCase (trim els.search))
        · rfl
        · exact absurd (Or.inr hc) h3
      refine ⟨?_, h4⟩
      rw [strTruthy_iff]
      intro h5
      rw [h5, includes_empty] at h4
      exact Bool.noConfusion h4
  have hfrom : (match (if strTruthy els.fromDate then some (h.dateParse els.fromDate) else none) with
        | some d => dateLt (h.dateParse t.date) d
        | none => false) = true ↔ ¬ FromRule h els t := by
    unfold FromRule
    by_cases he : els.fromDate = ""
    · simp [he, strTruthy_empty]
    · have : strTruthy els.fromDate = true := (strTruthy_iff _).2 he
      simp [this, he, dateLt_iff]
  have hto : (match (if strTruthy els.toDate then some (h.dateParse els.toDate) else none) with
        | some d => dateGt (h.dateParse t.date) d
        | none => false) = true ↔ ¬ ToRule h els t := by
    unfold ToRule
    by_cases he : els.toDate = ""
    · simp [he, strTruthy_empty]
    · have : strTruthy els.toDate = true := (strTruthy_iff _).2 he
      simp [this, he, dateGt, dateLt_iff]
  have hcat : (strTruthy els.filterCategory = true ∧ t.category ≠ els.filterCategory)
      ↔ ¬ CategoryRule els t := by
    unfold CategoryRule
    rw [strTruthy_iff]
    tauto
  have htyp : (strTruthy els.filterType = true ∧ t.type ≠ els.filterType)
      ↔ ¬ KindRule els t := by
    unfold KindRule
    rw [strTruthy_iff]
    tauto
  have key : ∀ b1 b2 b3 b4 b5 : Bool,
      (if b1 then false else if b2 then false else if b3 then false
        else if b4 then false else if b5 then false else true) = true
      ↔ (¬ b1 = true) ∧ (¬ b2 = true) ∧ (¬ b3 = true) ∧ (¬ b4 = true) ∧ (¬ b5 = true) := by
    decide
  unfold filterKeeps SatisfiesAll
  rw [key, hfrom, hto]
  simp only [Bool.and_eq_true, Bool.not_eq_true', bne_iff_ne, ne_eq]
  rw [hq, hcat, htyp]
  simp only [not_not]

theorem applyFilters_eq_filter (h : Host) (els : FilterControls) (txns : List Transaction) :
    applyFilters h els txns = txns.filter (fun t => decide (SatisfiesAll h els t)) := by
  unfold applyFilters
  apply List.filter_congr
  intro t _
  rw [Bool.eq_iff_iff, filterKeeps_iff]
  simp

/-- C1. For every transaction list and every setting of the filter controls,
`applyFilters` returns exactly the transactions of the input, in their
original relative order, that satisfy all the rules at once: the description
contains the text query (the search text without surrounding white space)
case-insensitively, the category and the kind equal those of the filter, the
date is not strictly earlier than the from-date and not strictly later than
the to-date, a rule whose field is empty being skipped. An all-empty filter
returns the whole list, and a transaction dated exactly on the from-date or
on the to-date is kept by the date rule of that bound. -/
theorem applyFilters_spec (h : Host) (els : FilterControls) (txns : List Transaction) :
    applyFilters h els txns = txns.filter (fun t => decide (SatisfiesAll h els t)) ∧
    (applyFilters h els txns).Sublist txns ∧
    (∀ t, t ∈ applyFilters h els txns ↔ t ∈ txns ∧ SatisfiesAll h els t) ∧
    (textQuery els = "" → els.filterCategory = "" → els.filterType = "" →
      els.fromDate = "" → els.toDate = "" → applyFilters h els txns = txns) ∧
    (∀ t ∈ txns, TextRule h els t → CategoryRule els t → KindRule els t →
      (t.date = els.fromDate → ToRule h els t → t ∈ applyFilters h els txns) ∧
      (t.date = els.toDate → FromRule h els t → t ∈ applyFilters h els txns)) := by
  have hmem : ∀ t, t ∈ applyFilters h els txns ↔ t ∈ txns ∧ SatisfiesAll h els t := by
    intro t
    rw [applyFilters_eq_filter]
    simp [List.mem_filter]
  refine ⟨applyFilters_eq_filter h els txns, ?_, hmem, ?_, ?_⟩
  · rw [applyFilters_eq_filter]
    exact List.filter_sublist txns
  · intro h1 h2 h3 h4 h5
    rw [applyFilters_eq_filter]
    apply List.filter_eq_self.2
    intro t _
    have : SatisfiesAll h els t :=
      ⟨Or.inl h1, Or.inl h2, Or.inl h3, Or.inl h4, Or.inl h5⟩
    simpa using this
  · intro t ht h1 h2 h3
    constructor
    · intro hd h5
      refine (hmem t).2 ⟨ht, h1, h2, h3, ?_, h5⟩
      right
      rw [hd]
      exact not_strictlyEarlier_self _
    · intro hd h4
      refine (hmem t).2 ⟨ht, h1, h2, h3, h4, ?_⟩
      right
      rw [hd]
      exact not_strictlyEarlier_self _

/-- The scenario of the specification: the January filter keeps the salary
and the rent and drops the February food entry. -/
theorem applyFilters_spec_witness :
    applyFilters (stdHost 0) scenarioFilter scenarioTxns = scenarioTxns.take 2 := by
  rw [(applyFilters_spec (stdHost 0) scenarioFilter scenarioTxns).1]
  decide

/-- C2. Filtering is idempotent: filtering an already filtered list again
with the same controls changes nothing. -/
theorem applyFilters_idempotent (h : Host) (els : FilterControls) (txns : List Transaction) :
    applyFilters h els (applyFilters h els txns) = applyFilters h els txns := by
  unfold applyFilters
  simp only [List.filter_filter, Bool.and_self]

/-! ## Malformed dates -/

theorem mem_applyFilters (h : Host) (els : FilterControls) (txns : List Transaction)
    (t : Transaction) :
    t ∈ applyFilters h els txns ↔ t ∈ txns ∧ SatisfiesAll h els t := by
  rw [applyFilters_eq_filter]
  simp [List.mem_filter]

/-- C8 (amended). For every transaction whose date string is malformed (parses
to an invalid date) and every setting of the filter, the date rules do not
exclude the transaction: `applyFilters` keeps it exactly when it satisfies the
text, category and kind rules, whatever the from-date and the to-date. -/
theorem applyFilters_invalid_date (h : Host) (els : FilterControls)
    (txns : List Transaction) (t : Transaction) (hd : h.dateParse t.date = none) :
    t ∈ applyFilters h els txns
      ↔ t ∈ txns ∧ TextRule h els t ∧ CategoryRule els t ∧ KindRule els t := by
  rw [mem_applyFilters]
  have h4 : FromRule h els t := by
    right
    rw [hd]
    exact fun x => x
  have h5 : ToRule h els t := by
    right
    rw [hd]
    cases h.dateParse els.toDate <;> exact fun x => x
  constructor
  · rintro ⟨ht, h1, h2, h3, _, _⟩
    exact ⟨ht, h1, h2, h3⟩
  · rintro ⟨ht, h1, h2, h3⟩
    exact ⟨ht, h1, h2, h3, h4, h5⟩

/-- A lunch dated `unknown` is kept by the filter for January 2024. -/
theorem applyFilters_invalid_date_witness :
    (stdHost 0).dateParse "unknown" = none ∧
    ({ id := "a", desc := "Lunch", amount := JSNum.fin 45, type := "expense",
       category := "Food", date := "unknown" } : Transaction)
      ∈ applyFilters (stdHost 0) scenarioFilter undatedTxns :=
  ⟨by decide,
    (applyFilters_invalid_date (stdHost 0) scenarioFilter undatedTxns _ (by decide)).2
      (by decide)⟩

/-- C8 fails as stated: with both the from-date and the to-date set, a
transaction whose date string parses to an invalid date is not excluded. -/
theorem applyFilters_invalid_date_counterexample :
    (stdHost 0).dateParse "unknown" = none ∧
    scenarioFilter.fromDate = "2024-01-01" ∧ scenarioFilter.toDate = "2024-01-31" ∧
    applyFilters (stdHost 0) scenarioFilter undatedTxns = undatedTxns := by
  decide

/-! ## CSV import -/

/-- The loop body keeps the rows pushed so far and adds the row of the line
when the line has at least 5 fields. -/
theorem parseCSVLine_eq (h : Host) (uuid : Nat → String) (txns : List Transaction)
    (line : String) :
    parseCSVLine h uuid txns line
      = if 5 ≤ (csvFields line).length then txns ++ [csvRow h (uuid txns.length) line]
        else txns := by
  unfold parseCSVLine csvRow
  simp only [csvFields]
  generalize (splitComma line).map trim = parts
  match parts with
  | [] => simp
  | [_] => simp
  | [_, _] => simp
  | [_, _, _] => simp
  | [_, _, _, _] => simp
  | a :: b :: c :: d :: e :: rest => simp

theorem parseCSV_fold (h : Host) (uuid : Nat → String) (ls : List String)
    (acc : List Transaction) :
    ls.foldl (parseCSVLine h uuid) acc
      = acc ++ csvRowsFrom h uuid acc.length
          (ls.filter (fun l => decide (5 ≤ (csvFields l).length))) := by
  induction ls generalizing acc with
  | nil => simp [csvRowsFrom]
  | cons l ls ih =>
    rw [List.foldl_cons, ih, parseCSVLine_eq]
    by_cases hl : 5 ≤ (csvFields l).length
    · simp [hl, List.filter_cons, csvRowsFrom]
    · simp [hl, List.filter_cons]

theorem csvRowsFrom_length (h : Host) (uuid : Nat → String) (start : Nat)
    (ls : List String) : (csvRowsFrom h uuid start ls).length = ls.length := by
  induction ls generalizing start with
  | nil => rfl
  | cons l ls ih => simp [csvRowsFrom, ih]

theorem csvRowsFrom_get (h : Host) (uuid : Nat → String) (start : Nat)
    (ls : List String) (i : Nat) (hi : i < ls.length) :
    (csvRowsFrom h uuid start ls)[i]? = some (csvRow h (uuid (start + i)) (ls.get ⟨i, hi⟩)) := by
  induction ls generalizing start i with
  | nil => simp at hi
  | cons l ls ih =>
    cases i with
    | zero => simp [csvRowsFrom]
    | succ j =>
      have hj : j < ls.length := by simpa using hi
      simp only [csvRowsFrom, List.getElem?_cons_succ, List.get_cons_succ]
      rw [ih (start + 1) j hj]
      congr 3
      omega

/-- C7. For every existing transaction list and every CSV text, the CSV import
(`parseCSV` followed by `mergeTransactions`) yields the existing list
unchanged followed by one new transaction per line after the first (header)
line that has at least 5 comma-separated fields, in file order and with no
deduplication; each new transaction takes description, amount (as a number),
kind, category and date from the fields 1 to 5 in that order, and lines with
fewer than 5 fields contribute nothing. The lines are those of the text
without its surrounding white space, and the fields are taken without theirs. -/
theorem importCSV_spec (h : Host) (uuid : Nat → String) (existing : List Transaction)
    (text : String) :
    (importCSV h uuid existing text
      = existing ++ csvRowsFrom h uuid 0 (csvFullLines text)) ∧
    (importCSV h uuid existing text).length
      = existing.length + (csvFullLines text).length ∧
    (importCSV h uuid existing text).take existing.length = existing ∧
    (∀ (i : Nat) (hi : i < (csvFullLines text).length),
      (importCSV h uuid existing text)[existing.length + i]?
        = some { id := uuid i
                 desc := (csvFields ((csvFullLines text).get ⟨i, hi⟩)).getD 0 ""
                 amount := h.toNumber ((csvFields ((csvFullLines text).get ⟨i, hi⟩)).getD 1 "")
                 type := (csvFields ((csvFullLines text).get ⟨i, hi⟩)).getD 2 ""
                 category := (csvFields ((csvFullLines text).get ⟨i, hi⟩)).getD 3 ""
                 date := (csvFields ((csvFullLines text).get ⟨i, hi⟩)).getD 4 "" }) ∧
    (∀ l, l ∈ csvFullLines text ↔ l ∈ csvDataLines text ∧ 5 ≤ (csvFields l).length) := by
  have hmain : importCSV h uuid existing text
      = existing ++ csvRowsFrom h uuid 0 (csvFullLines text) := by
    unfold importCSV mergeTransactions parseCSV
    simp only
    rw [parseCSV_fold]
    rfl
  refine ⟨hmain, ?_, ?_, ?_, ?_⟩
  · rw [hmain, List.length_append, csvRowsFrom_length]
  · rw [hmain, List.take_left']
    rfl
  · intro i hi
    rw [hmain, List.getElem?_append_right (Nat.le_add_right _ _)]
    have e : existing.length + i - existing.length = i := by omega
    rw [e, csvRowsFrom_get h uuid 0 _ i hi, Nat.zero_add]
    rfl
  · intro l
    simp [csvFullLines, List.mem_filter]

/-- Importing a file made of a header line and the row
`Lunch,45,expense,Food,2024-03-01` into an empty list gives exactly one
transaction, with the amount 45 and the kind expense. -/
theorem importCSV_spec_witness :
    (importCSV (stdHost 0) testUuid [] lunchCsv
      = [{ id := "id0", desc := "Lunch", amount := JSNum.fin 45, type := "expense",
           category := "Food", date := "2024-03-01" }]) := by
  rw [(importCSV_spec (stdHost 0) testUuid [] lunchCsv).1]
  decide!

/-- A file with a short line, a row given twice and a row of six fields,
brought into the scenario list: the three transactions already there stay in
front, the short line gives nothing, and the repeated row is added twice. -/
theorem importCSV_mixed_example :
    ((importCSV (stdHost 0) testUuid scenarioTxns mixedCsv).map
        (fun t => (t.id, t.desc, t.amount, t.type, t.category, t.date))
      = [ ("a", "Salary", JSNum.fin 4500, "income", "Salary", "2024-01-05"),
          ("b", "Rent", JSNum.fin 1200, "expense", "Rent", "2024-01-10"),
          ("c", "Food", JSNum.fin 230, "expense", "Food", "2024-02-01"),
          ("id0", "Lunch", JSNum.fin 45, "expense", "Food", "2024-03-01"),
          ("id1", "Lunch", JSNum.fin 45, "expense", "Food", "2024-03-01"),
          ("id2", "Bus", JSNum.fin (7 / 2), "expense", "Transport", "2024-03-02") ]) := by
  decide!

/-! ## Adding and editing -/

/-- C9 (amended). For every add-transaction submission whose description is
empty after trimming, or whose amount is zero or not a number, or whose date
is missing, the add operation is rejected: the transaction list is left
unchanged and no transaction is created. -/
theorem submitTxn_rejects (h : Host) (id : String) (form : TxnForm)
    (transactions : List Transaction)
    (hbad : trim form.desc = "" ∨ h.toNumber form.amount = JSNum.fin 0 ∨
      h.toNumber form.amount = JSNum.nan ∨ form.date = "") :
    submitTxn h id form transactions = transactions := by
  unfold submitTxn
  rcases hbad with e | e | e | e <;> simp [e, strTruthy, JSNum.truthy]

/-- A submission with the amount `0` is rejected. -/
theorem submitTxn_rejects_witness :
    (stdHost 0).toNumber zeroForm.amount = JSNum.fin 0 ∧
    submitTxn (stdHost 0) "id0" zeroForm scenarioTxns = scenarioTxns :=
  ⟨by decide!,
    submitTxn_rejects (stdHost 0) "id0" zeroForm scenarioTxns (Or.inr (Or.inl (by decide!)))⟩

/-- C9 fails as stated: a submission with the negative amount `-5` is not
rejected, the transaction is appended to the list. -/
theorem submitTxn_counterexample :
    (stdHost 0).toNumber negativeForm.amount = JSNum.fin (-5) ∧
    submitTxn (stdHost 0) "id0" negativeForm []
      = [{ id := "id0", desc := "Refund", amount := JSNum.fin (-5), type := "expense",
           category := "Food", date := "2024-03-01" }] := by
  decide!

/-- The save handler of the edit dialog checks nothing: the edited transaction
takes the values of the dialog, whatever they are. -/
theorem saveEdit_head (h : Host) (form : EditForm) (t : Transaction)
    (ts : List Transaction) :
    saveEdit h t.id form (t :: ts) = applyEdit h form t :: ts := by
  simp [saveEdit, updateFirst]

/-- C10, the code at a failing input: editing the rent entry of the scenario
to an empty description, the amount `-3` and no date is not rejected; the
entry is overwritten with these values. -/
theorem saveEdit_accepts_invalid :
    saveEdit (stdHost 0) "b" badEdit scenarioTxns
      = [ { id := "a", desc := "Salary", amount := JSNum.fin 4500, type := "income",
            category := "Salary", date := "2024-01-05" },
          { id := "b", desc := "", amount := JSNum.fin (-3), type := "expense",
            category := "Rent", date := "" },
          { id := "c", desc := "Food", amount := JSNum.fin 230, type := "expense",
            category := "Food", date := "2024-02-01" } ] ∧
    saveEdit (stdHost 0) "b" badEdit scenarioTxns ≠ scenarioTxns := by
  decide!

/-! ## JSON export and import -/

mutual
/-- A value JSON can write as it is comes back unchanged. -/
theorem clone_of_jsonSafe : ∀ v : Val, v.jsonSafe = true → v.clone = v
  | Val.null, _ => rfl
  | Val.bool _, _ => rfl
  | Val.num JSNum.nan, h => by simp [Val.jsonSafe] at h
  | Val.num JSNum.inf, h => by simp [Val.jsonSafe] at h
  | Val.num JSNum.ninf, h => by simp [Val.jsonSafe] at h
  | Val.num (JSNum.fin _), _ => rfl
  | Val.str _, _ => rfl
  | Val.arr items, h => by
    simp only [Val.jsonSafe] at h
    simp only [Val.clone, cloneList_of_jsonSafe items h]
  | Val.obj props, h => by
    simp only [Val.jsonSafe] at h
    simp only [Val.clone, cloneProps_of_jsonSafe props h]
/-- The items of an array JSON can write come back unchanged. -/
theorem cloneList_of_jsonSafe : ∀ l : List Val, Val.jsonSafeList l = true → Val.cloneList l = l
  | [], _ => rfl
  | v :: vs, h => by
    simp only [Val.jsonSafeList, Bool.and_eq_true] at h
    simp only [Val.cloneList, clone_of_jsonSafe v h.1, cloneList_of_jsonSafe vs h.2]
/-- The properties of an object JSON can write come back unchanged. -/
theorem cloneProps_of_jsonSafe :
    ∀ l : List (String × Val), Val.jsonSafeProps l = true → Val.cloneProps l = l
  | [], _ => rfl
  | (k, v) :: ps, h => by
    simp only [Val.jsonSafeProps, Bool.and_eq_true] at h
    simp only [Val.cloneProps, clone_of_jsonSafe v h.1, cloneProps_of_jsonSafe ps h.2]
end

theorem clone_isArray (v : Val) : v.clone.isArray = v.isArray := by
  cases v with
  | num a => cases a <;> rfl
  | _ => rfl

theorem clone_isObjectLike (v : Val) : v.clone.isObjectLike = v.isObjectLike := by
  cases v with
  | num a => cases a <;> rfl
  | _ => rfl

/-- The import of an exported file: the transactions and the budgets of the
file, each as JSON wrote it, replace those in memory when they are an array
and an object. -/
theorem importJSON_exportFile (s before : AppState) (exportedAt : String)
    (ha : s.transactions.isArray = true) (hb : s.budgets.isObjectLike = true) :
    (importJSON (exportFile s exportedAt) before
      = { state := { transactions := s.transactions.clone, budgets := s.budgets.clone },
          failed := false }) := by
  have ha1 := (clone_isArray s.transactions).trans ha
  have hb1 := (clone_isObjectLike s.budgets).trans hb
  simp [importJSON, exportFile, exportData, Val.clone, Val.cloneProps, Val.getProp,
    Val.lookup, ha1, hb1]

theorem toVal_jsonSafe (t : Transaction) (ht : t.amount.IsFinite) :
    t.toVal.jsonSafe = true := by
  cases ha : t.amount with
  | nan => rw [ha] at ht; exact absurd ht (fun h => h)
  | inf => rw [ha] at ht; exact absurd ht (fun h => h)
  | ninf => rw [ha] at ht; exact absurd ht (fun h => h)
  | fin q => simp [Transaction.toVal, Val.jsonSafe, Val.jsonSafeProps, ha]

theorem toVal_list_jsonSafe (txns : List Transaction) (hn : ∀ t ∈ txns, t.amount.IsFinite) :
    Val.jsonSafeList (txns.map Transaction.toVal) = true := by
  induction txns with
  | nil => rfl
  | cons t ts ih =>
    simp only [List.map_cons, Val.jsonSafeList, Bool.and_eq_true]
    exact ⟨toVal_jsonSafe t (hn t (List.mem_cons_self _ _)),
      ih (fun u hu => hn u (List.mem_cons_of_mem _ hu))⟩

theorem budgets_jsonSafe (budgets : List (String × JSNum))
    (hb : ∀ e ∈ budgets, e.2.IsFinite) :
    Val.jsonSafeProps (budgets.map (fun e => (e.1, Val.num e.2))) = true := by
  induction budgets with
  | nil => rfl
  | cons e es ih =>
    have he : e.2.IsFinite := hb e (List.mem_cons_self _ _)
    have hes := ih (fun u hu => hb u (List.mem_cons_of_mem _ hu))
    obtain ⟨k, a⟩ := e
    cases a with
    | nan => exact absurd he (fun h => h)
    | inf => exact absurd he (fun h => h)
    | ninf => exact absurd he (fun h => h)
    | fin q =>
      simp only [List.map_cons, Val.jsonSafeProps, Val.jsonSafe, Bool.true_and]
      exact hes

/-- C11. For every state and every import whose file content fails to import
(JSON text that does not parse, or parses to a value from which the field
`transactions` cannot be read), the transaction list and the budget map in
memory after the import equal those before it, and the failure branch runs:
a failed import applies nothing, not even partially. -/
theorem importJSON_failure_unchanged (content : Option Val) (state : AppState)
    (hf : FailsToImport content) :
    (importJSON content state).state = state ∧
    (importJSON content state).state.transactions = state.transactions ∧
    (importJSON content state).state.budgets = state.budgets ∧
    (importJSON content state).failed = true := by
  rcases hf with h | h <;> subst h <;> simp [importJSON, Val.getProp]

/-- A text that does not parse and the text `null` leave the scenario state
as it was. -/
theorem importJSON_failure_unchanged_witness :
    FailsToImport none ∧ FailsToImport (some Val.null) ∧
    (importJSON none (AppState.ofLists scenarioTxns defaultBudgets)).state
      = AppState.ofLists scenarioTxns defaultBudgets ∧
    (importJSON (some Val.null) (AppState.ofLists scenarioTxns defaultBudgets)).state
      = AppState.ofLists scenarioTxns defaultBudgets :=
  ⟨Or.inl rfl, Or.inr rfl,
    (importJSON_failure_unchanged none _ (Or.inl rfl)).1,
    (importJSON_failure_unchanged (some Val.null) _ (Or.inr rfl)).1⟩

/-- C12 (amended). For every state whose transaction list is an array and
whose budget map is an object, and in which every number is one JSON can
write (no `NaN`, no infinity), exporting it to the JSON export object
`{transactions, budgets, exportedAt}` and then importing that same JSON yields
a transaction list and a budget map identical to the ones exported, whatever
the state was before the import. This covers every state made of a list of
transactions and a budget map whose amounts and limits are finite numbers. -/
theorem export_import_roundtrip (s before : AppState) (exportedAt : String)
    (ha : s.transactions.isArray = true) (hb : s.budgets.isObjectLike = true)
    (hst : s.transactions.jsonSafe = true) (hsb : s.budgets.jsonSafe = true) :
    (importJSON (exportFile s exportedAt) before).state = s ∧
    (importJSON (exportFile s exportedAt) before).state.transactions = s.transactions ∧
    (importJSON (exportFile s exportedAt) before).state.budgets = s.budgets ∧
    (importJSON (exportFile s exportedAt) before).failed = false := by
  rw [importJSON_exportFile s before exportedAt ha hb, clone_of_jsonSafe _ hst,
    clone_of_jsonSafe _ hsb]
  exact ⟨rfl, rfl, rfl, rfl⟩

/-- A state made of a transaction list and a budget map whose amounts and
limits are finite numbers satisfies the conditions of the round trip. -/
theorem ofLists_wellFormed (txns : List Transaction) (budgets : List (String × JSNum))
    (hn : ∀ t ∈ txns, t.amount.IsFinite) (hb : ∀ e ∈ budgets, e.2.IsFinite) :
    (AppState.ofLists txns budgets).transactions.isArray = true ∧
    (AppState.ofLists txns budgets).budgets.isObjectLike = true ∧
    (AppState.ofLists txns budgets).transactions.jsonSafe = true ∧
    (AppState.ofLists txns budgets).budgets.jsonSafe = true := by
  refine ⟨rfl, rfl, ?_, ?_⟩
  · simp only [AppState.ofLists, Val.jsonSafe]
    exact toVal_list_jsonSafe txns hn
  · simp only [AppState.ofLists, Val.jsonSafe]
    exact budgets_jsonSafe budgets hb

/-- The scenario state, exported and brought back over an empty state, is the
scenario state. -/
theorem export_import_roundtrip_witness :
    (AppState.ofLists scenarioTxns defaultBudgets).transactions.isArray = true ∧
    (AppState.ofLists scenarioTxns defaultBudgets).budgets.isObjectLike = true ∧
    (AppState.ofLists scenarioTxns defaultBudgets).transactions.jsonSafe = true ∧
    (AppState.ofLists scenarioTxns defaultBudgets).budgets.jsonSafe = true ∧
    (importJSON (exportFile (AppState.ofLists scenarioTxns defaultBudgets)
        "2024-03-01T00:00:00.000Z") (AppState.ofLists [] [])).state
      = AppState.ofLists scenarioTxns defaultBudgets :=
  ⟨(ofLists_wellFormed scenarioTxns defaultBudgets (by decide) (by decide)).1,
   (ofLists_wellFormed scenarioTxns defaultBudgets (by decide) (by decide)).2.1,
   (ofLists_wellFormed scenarioTxns defaultBudgets (by decide) (by decide)).2.2.1,
   (ofLists_wellFormed scenarioTxns defaultBudgets (by decide) (by decide)).2.2.2,
   (export_import_roundtrip (AppState.ofLists scenarioTxns defaultBudgets)
    (AppState.ofLists [] []) "2024-03-01T00:00:00.000Z"
    (ofLists_wellFormed scenarioTxns defaultBudgets (by decide) (by decide)).1
    (ofLists_wellFormed scenarioTxns defaultBudgets (by decide) (by decide)).2.1
    (ofLists_wellFormed scenarioTxns defaultBudgets (by decide) (by decide)).2.2.1
    (ofLists_wellFormed scenarioTxns defaultBudgets (by decide) (by decide)).2.2.2).1⟩

/-- C12 fails as stated: a transaction whose amount is `NaN` is exported with
the amount `null`, so the list that comes back differs from the one exported. -/
theorem export_import_counterexample :
    (importJSON (exportFile (AppState.ofLists nanTxns defaultBudgets)
        "2024-03-01T00:00:00.000Z") (AppState.ofLists [] [])).state.transactions
      = Val.arr
          [ Val.obj [("id", Val.str "a"), ("desc", Val.str "x"), ("amount", Val.null),
              ("type", Val.str "expense"), ("category", Val.str "Food"),
              ("date", Val.str "2024-01-05")],
            Val.obj [("id", Val.str "b"), ("desc", Val.str "y"),
              ("amount", Val.num (JSNum.fin 5)), ("type", Val.str "expense"),
              ("category", Val.str "Food"), ("date", Val.str "2024-01-06")] ] ∧
    (importJSON (exportFile (AppState.ofLists nanTxns defaultBudgets)
        "2024-03-01T00:00:00.000Z") (AppState.ofLists [] [])).state.transactions
      ≠ (AppState.ofLists nanTxns defaultBudgets).transactions := by
  constructor
  · rfl
  · intro h
    simp [importJSON, exportFile, exportData, AppState.ofLists, nanTxns, Transaction.toVal,
      Val.clone, Val.cloneList, Val.cloneProps, Val.getProp, Val.lookup, Val.isArray,
      Val.isObjectLike] at h

/-! ## Objects -/

theorem ownGet_ownSet (o : JSObj) (k k' : String) (v : JSVal) :
    ownGet (ownSet o k v) k' = if k = k' then some v else ownGet o k' := by
  induction o with
  | nil => simp [ownSet, ownGet]
  | cons p rest ih =>
    obtain ⟨k0, v0⟩ := p
    by_cases h0 : k0 = k
    · subst h0
      by_cases h1 : k0 = k' <;> simp [ownSet, ownGet, h1]
    · by_cases h1 : k0 = k'
      · subst h1
        have h2 : ¬ k = k0 := fun e => h0 e.symm
        simp [ownSet, ownGet, h0, h2]
      · simp [ownSet, ownGet, h0, h1, ih]

theorem mem_of_ownGet (o : JSObj) (k : String) (v : JSVal) (h : ownGet o k = some v) :
    (k, v) ∈ o := by
  induction o with
  | nil => simp [ownGet] at h
  | cons p rest ih =>
    obtain ⟨k0, v0⟩ := p
    by_cases h0 : k0 = k
    · subst h0
      simp [ownGet] at h
      simp [h]
    · simp [ownGet, h0] at h
      exact List.mem_cons_of_mem _ (ih h)

theorem ownGet_isSome_iff (o : JSObj) (k : String) :
    (ownGet o k).isSome = true ↔ k ∈ ownKeys o := by
  induction o with
  | nil => simp [ownGet, ownKeys]
  | cons p rest ih =>
    obtain ⟨k0, v0⟩ := p
    by_cases h0 : k0 = k
    · simp [ownGet, ownKeys, h0]
    · have h1 : ¬ k = k0 := fun e => h0 e.symm
      simp only [ownGet, h0, if_false, ih]
      simp [ownKeys, h1]

theorem mem_ownKeys_ownSet (o : JSObj) (k k' : String) (v : JSVal) :
    k' ∈ ownKeys (ownSet o k v) ↔ k' ∈ ownKeys o ∨ k' = k := by
  rw [← ownGet_isSome_iff, ← ownGet_isSome_iff, ownGet_ownSet]
  by_cases h : k = k'
  · simp [h]
  · have h1 : ¬ k' = k := fun e => h e.symm
    simp [h, h1]

/-! ## The category chart -/

theorem ownKeys_ownSet (o : JSObj) (k : String) (v : JSVal) :
    ownKeys (ownSet o k v) = addSeen (ownKeys o) k := by
  induction o with
  | nil => simp [ownSet, ownKeys, addSeen]
  | cons p rest ih =>
    obtain ⟨k0, v0⟩ := p
    by_cases h0 : k0 = k
    · subst h0
      simp [ownSet, ownKeys, addSeen]
    · have h1 : ¬ k = k0 := fun e => h0 e.symm
      have e1 : ownKeys ((k0, v0) :: ownSet rest k v) = k0 :: ownKeys (ownSet rest k v) := rfl
      have e2 : ownKeys ((k0, v0) :: rest) = k0 :: ownKeys rest := rfl
      simp only [ownSet, h0, if_false]
      rw [e1, e2, ih]
      unfold addSeen
      by_cases hm : k ∈ ownKeys rest
      · simp [hm]
      · simp [hm, h1]

theorem ownKeys_accumStep (key : Transaction → String) (amt : Transaction → JSNum)
    (acc : JSObj) (t : Transaction) (hp : key t ≠ "__proto__") :
    ownKeys (accumStep key amt acc t) = addSeen (ownKeys acc) (key t) := by
  unfold accumStep objSet
  rw [if_neg hp, ownKeys_ownSet]

theorem ownKeys_accumFold (key : Transaction → String) (amt : Transaction → JSNum)
    (l : List Transaction) (acc : JSObj) (hp : ∀ t ∈ l, key t ≠ "__proto__") :
    ownKeys (l.foldl (accumStep key amt) acc) = (l.map key).foldl addSeen (ownKeys acc) := by
  induction l generalizing acc with
  | nil => rfl
  | cons t ts ih =>
    rw [List.foldl_cons, List.map_cons, List.foldl_cons,
      ih _ (fun u hu => hp u (List.mem_cons_of_mem _ hu)),
      ownKeys_accumStep key amt acc t (hp t (List.mem_cons_self _ _))]

theorem firstSeen_append_singleton (l : List String) (x : String) :
    firstSeen (l ++ [x]) = addSeen (firstSeen l) x := by
  simp [firstSeen, List.foldl_append]

/-- The names in first-seen order: each once, exactly the names of the list,
and one before another exactly when its first occurrence comes first. -/
theorem firstSeen_spec (l : List String) :
    (firstSeen l).Nodup ∧ (∀ c, c ∈ firstSeen l ↔ c ∈ l) ∧
    (∀ c d, c ∈ l → d ∈ l →
      ((firstSeen l).indexOf c < (firstSeen l).indexOf d ↔ l.indexOf c < l.indexOf d)) := by
  induction l using List.reverseRecOn with
  | nil => simp [firstSeen]
  | append_singleton l x ih =>
    obtain ⟨hnd, hmem, hord⟩ := ih
    rw [firstSeen_append_singleton]
    by_cases hx : x ∈ l
    · have hxs : x ∈ firstSeen l := (hmem x).2 hx
      have hadd : addSeen (firstSeen l) x = firstSeen l := by simp [addSeen, hxs]
      rw [hadd]
      have hin : ∀ c, c ∈ l ++ [x] → c ∈ l := by
        intro c hc
        rcases List.mem_append.1 hc with h | h
        · exact h
        · rw [List.mem_singleton.1 h]; exact hx
      refine ⟨hnd, ?_, ?_⟩
      · intro c
        rw [hmem c]
        exact ⟨fun h => List.mem_append_left _ h, hin c⟩
      · intro c d hc hd
        rw [List.indexOf_append_of_mem (hin c hc), List.indexOf_append_of_mem (hin d hd)]
        exact hord c d (hin c hc) (hin d hd)
    · have hxs : x ∉ firstSeen l := fun h => hx ((hmem x).1 h)
      have hadd : addSeen (firstSeen l) x = firstSeen l ++ [x] := by simp [addSeen, hxs]
      rw [hadd]
      have ixK : (firstSeen l ++ [x]).indexOf x = (firstSeen l).length := by
        rw [List.indexOf_append_of_not_mem hxs]
        simp
      have ixL : (l ++ [x]).indexOf x = l.length := by
        rw [List.indexOf_append_of_not_mem hx]
        simp
      refine ⟨?_, ?_, ?_⟩
      · rw [List.nodup_append]
        refine ⟨hnd, List.nodup_singleton x, ?_⟩
        intro a ha hb
        rw [List.mem_singleton.1 hb] at ha
        exact hxs ha
      · intro c
        simp only [List.mem_append, List.mem_singleton, hmem c]
      · intro c d hc hd
        rcases List.mem_append.1 hc with hcl | hcx <;>
          rcases List.mem_append.1 hd with hdl | hdx
        · rw [List.indexOf_append_of_mem ((hmem c).2 hcl),
            List.indexOf_append_of_mem ((hmem d).2 hdl),
            List.indexOf_append_of_mem hcl, List.indexOf_append_of_mem hdl]
          exact hord c d hcl hdl
        · rw [List.mem_singleton.1 hdx, ixK, ixL,
            List.indexOf_append_of_mem ((hmem c).2 hcl), List.indexOf_append_of_mem hcl]
          exact ⟨fun _ => List.indexOf_lt_length.2 hcl,
            fun _ => List.indexOf_lt_length.2 ((hmem c).2 hcl)⟩
        · rw [List.mem_singleton.1 hcx, ixK, ixL,
            List.indexOf_append_of_mem ((hmem d).2 hdl), List.indexOf_append_of_mem hdl]
          have h1 := List.indexOf_lt_length.2 ((hmem d).2 hdl)
          have h2 := List.indexOf_lt_length.2 hdl
          constructor <;> intro h <;> omega
        · rw [List.mem_singleton.1 hcx, List.mem_singleton.1 hdx]
          simp

/-- Without array-index names, `Object.keys` gives the own names in creation
order. -/
theorem objectKeys_eq_ownKeys (o : JSObj) (h : ∀ k ∈ ownKeys o, isArrayIndex k = false) :
    objectKeys o = ownKeys o := by
  have h1 : (ownKeys o).filter isArrayIndex = [] := by
    apply List.filter_eq_nil_iff.2
    intro k hk
    simp [h k hk]
  have h2 : (ownKeys o).filter (fun k => !isArrayIndex k) = ownKeys o := by
    apply List.filter_eq_self.2
    intro k hk
    simp [h k hk]
  unfold objectKeys
  rw [h1, h2]
  rfl

theorem aggregateByCategory_ownKeys (txns : List Transaction)
    (hp : ∀ t ∈ txns, t.category ≠ "__proto__") :
    ownKeys (aggregateByCategory txns) = firstSeen (txns.map (fun t => t.category)) :=
  ownKeys_accumFold (fun t => t.category) (fun t => t.amount) txns [] hp

/-- C13 (amended). For every list of transactions whose category names are
neither array indices (canonical decimal numbers such as `7` or `2024`) nor
`__proto__`, the categories of `aggregateByCategory(list)`, enumerated as the
category chart does with `Object.keys`, appear in first-seen order: each
category of the list appears once, and category `c` comes before category `d`
exactly when the first transaction of category `c` precedes the first
transaction of category `d` in the list. For a list of expense-kind
transactions these are the labels of the category chart. -/
theorem categoryOrder_spec (txns : List Transaction)
    (hi : ∀ t ∈ txns, isArrayIndex t.category = false)
    (hp : ∀ t ∈ txns, t.category ≠ "__proto__") :
    (objectKeys (aggregateByCategory txns)).Nodup ∧
    (∀ c, c ∈ objectKeys (aggregateByCategory txns) ↔ ∃ t ∈ txns, t.category = c) ∧
    (∀ c d, c ∈ objectKeys (aggregateByCategory txns) →
      d ∈ objectKeys (aggregateByCategory txns) →
      ((objectKeys (aggregateByCategory txns)).indexOf c
          < (objectKeys (aggregateByCategory txns)).indexOf d
        ↔ (txns.map (fun t => t.category)).indexOf c
          < (txns.map (fun t => t.category)).indexOf d)) ∧
    ((∀ t ∈ txns, t.type = "expense") →
      (renderCategoryChart txns).1 = objectKeys (aggregateByCategory txns)) := by
  have hown := aggregateByCategory_ownKeys txns hp
  obtain ⟨hnd, hmem, hord⟩ := firstSeen_spec (txns.map (fun t => t.category))
  have hkeys : objectKeys (aggregateByCategory txns)
      = firstSeen (txns.map (fun t => t.category)) := by
    rw [objectKeys_eq_ownKeys, hown]
    intro k hk
    rw [hown] at hk
    obtain ⟨t, ht, rfl⟩ := List.mem_map.1 ((hmem k).1 hk)
    exact hi t ht
  rw [hkeys]
  refine ⟨hnd, ?_, ?_, ?_⟩
  · intro c
    rw [hmem c]
    simp [List.mem_map]
  · intro c d hc hd
    exact hord c d ((hmem c).1 hc) ((hmem d).1 hd)
  · intro hk
    have hf : txns.filter (fun t => t.type == "expense") = txns := by
      apply List.filter_eq_self.2
      intro t ht
      simp [hk t ht]
    simp only [renderCategoryChart, hf]
    exact hkeys

/-- The scenario list followed by two more food entries gives the labels
Salary, Rent, Food. -/
theorem categoryOrder_spec_witness :
    (∀ t ∈ scenarioTxns ++ nanTxns, isArrayIndex t.category = false) ∧
    (∀ t ∈ scenarioTxns ++ nanTxns, t.category ≠ "__proto__") ∧
    (objectKeys (aggregateByCategory (scenarioTxns ++ nanTxns))).Nodup ∧
    objectKeys (aggregateByCategory (scenarioTxns ++ nanTxns)) = ["Salary", "Rent", "Food"] :=
  ⟨by decide, by decide,
    (categoryOrder_spec (scenarioTxns ++ nanTxns) (by decide) (by decide)).1,
    by decide!⟩

/-- C13 fails as stated. A category whose name is an array index is listed
before the others whatever its place in the list: the expenses Food then `7`
are enumerated as `7`, Food. The category `__proto__` never becomes a key. -/
theorem categoryOrder_counterexample :
    ((∀ t ∈ numberedTxns, t.type = "expense") ∧
      numberedTxns.map (fun t => t.category) = ["Food", "7"] ∧
      objectKeys (aggregateByCategory numberedTxns) = ["7", "Food"] ∧
      (renderCategoryChart numberedTxns).1 = ["7", "Food"]) ∧
    ((∀ t ∈ protoKeyTxns, t.type = "expense") ∧
      protoKeyTxns.map (fun t => t.category) = ["__proto__", "Transport"] ∧
      objectKeys (aggregateByCategory protoKeyTxns) = ["Transport"]) := by
  decide!

/-! ## Numbers -/

theorem log2Fuel_le (fuel n k : Nat) (h : n < 2 ^ (k + 1)) : log2Fuel fuel n ≤ k := by
  induction fuel generalizing n k with
  | zero => simp [log2Fuel]
  | succ fuel ih =>
    unfold log2Fuel
    split
    · cases k with
      | zero => omega
      | succ k =>
        have h2 : n / 2 < 2 ^ (k + 1) := by
          rw [Nat.div_lt_iff_lt_mul (by norm_num)]
          calc n < 2 ^ (k + 1 + 1) := h
            _ = 2 ^ (k + 1) * 2 := by ring
        have := ih (n / 2) k h2
        omega
    · omega

theorem pow2_nonpos (p : ℤ) (hp : p ≤ 0) : pow2 p = 1 / ((2 ^ (-p).toNat : ℕ) : ℚ) := by
  unfold pow2
  split
  · have : p = 0 := by omega
    subst this
    simp
  · rfl

theorem pow2_pos (p : ℤ) : 0 < pow2 p := by
  unfold pow2
  split <;> positivity

theorem roundHalfEven_intCast (n : ℤ) : roundHalfEven (n : ℚ) = n := by
  unfold roundHalfEven
  simp

theorem roundHalfEven_nonneg (m : ℚ) (hm : 0 ≤ m) : 0 ≤ roundHalfEven m := by
  have hf : 0 ≤ ⌊m⌋ := Int.floor_nonneg.2 hm
  unfold roundHalfEven
  split
  · exact hf
  · split
    · omega
    · split <;> omega

theorem floorLog2_le (q : ℚ) (k : Nat) (h : q.num.natAbs < 2 ^ (k + 1)) :
    floorLog2 q ≤ k := by
  unfold floorLog2
  have h1 : bitLog q.num.natAbs ≤ k := log2Fuel_le _ _ _ h
  simp only
  split <;> omega

/-- A natural number below 2^53 is a double. -/
theorem roundMag_natCast (k : ℕ) (hk : k < 2 ^ 53) : roundMag (k : ℚ) = some (k : ℚ) := by
  have hfl : floorLog2 (k : ℚ) ≤ 52 := by
    apply floorLog2_le (k : ℚ) 52
    simpa using hk
  have hp : max (floorLog2 (k : ℚ)) (-1022) - 52 ≤ 0 := by omega
  unfold roundMag
  simp only
  generalize max (floorLog2 (k : ℚ)) (-1022) - 52 = p at hp
  rw [pow2_nonpos p hp]
  have e1 : (k : ℚ) / (1 / ((2 ^ (-p).toNat : ℕ) : ℚ)) = ((k * 2 ^ (-p).toNat : ℤ) : ℚ) := by
    push_cast
    field_simp
  rw [e1, roundHalfEven_intCast]
  have e2 : ((k * 2 ^ (-p).toNat : ℤ) : ℚ) * (1 / ((2 ^ (-p).toNat : ℕ) : ℚ)) = (k : ℚ) := by
    push_cast
    field_simp
  rw [e2]
  have e3 : ¬ pow2 1024 ≤ (k : ℚ) := by
    unfold pow2
    simp only [not_le]
    have h1 : (k : ℚ) < ((2 ^ 53 : ℕ) : ℚ) := by exact_mod_cast hk
    have h2 : ((2 ^ 53 : ℕ) : ℚ) ≤ ((2 ^ (1024 : ℤ).toNat : ℕ) : ℚ) := by
      have : (1024 : ℤ).toNat = 1024 := rfl
      rw [this]
      exact_mod_cast Nat.pow_le_pow_right (by norm_num) (by norm_num)
    simp only [show (0 : ℤ) ≤ 1024 by norm_num, if_true]
    exact lt_of_lt_of_le h1 h2
  simp [e3]

/-- An integer of magnitude below 2^53 is a double: rounding leaves it as it is. -/
theorem roundDouble_intCast (k : ℤ) (hk : k.natAbs < 2 ^ 53) :
    roundDouble (k : ℚ) = JSNum.fin (k : ℚ) := by
  unfold roundDouble
  by_cases h0 : (k : ℚ) = 0
  · simp [h0]
  · rw [if_neg h0]
    by_cases hpos : (0 : ℚ) < k
    · rw [if_pos hpos]
      have hk0 : 0 < k := by exact_mod_cast hpos
      have h1 : ((k.natAbs : ℤ) : ℚ) = (k : ℚ) := by rw [Int.natAbs_of_nonneg hk0.le]
      have e : (k : ℚ) = ((k.natAbs : ℕ) : ℚ) := by
        rw [← h1, Int.cast_natCast]
      rw [e, roundMag_natCast _ hk]
    · rw [if_neg hpos]
      have hk0 : k ≤ 0 := by
        have : (k : ℚ) ≤ 0 := not_lt.1 hpos
        exact_mod_cast this
      have h1 : ((k.natAbs : ℤ) : ℚ) = ((-k : ℤ) : ℚ) := by
        rw [Int.ofNat_natAbs_of_nonpos hk0]
      have e : -(k : ℚ) = ((k.natAbs : ℕ) : ℚ) := by
        rw [← Int.cast_neg, ← h1, Int.cast_natCast]
      rw [e, roundMag_natCast _ hk]
      show JSNum.fin (-((k.natAbs : ℕ) : ℚ)) = JSNum.fin (k : ℚ)
      rw [← e, neg_neg]

theorem natAbs_lt_of_abs_lt (k : ℤ) (h : |(k : ℚ)| < 2 ^ 53) : k.natAbs < 2 ^ 53 := by
  have h1 : ((k.natAbs : ℕ) : ℚ) = |(k : ℚ)| := by
    rw [Nat.cast_natAbs, Int.cast_abs]
  have h2 : ((k.natAbs : ℕ) : ℚ) < ((2 ^ 53 : ℕ) : ℚ) := by
    rw [h1]
    exact_mod_cast h
  exact_mod_cast h2

/-- A whole number is the cast of an integer. -/
theorem exists_int_of_den_one (q : ℚ) (h : q.den = 1) : ∃ k : ℤ, q = (k : ℚ) :=
  ⟨q.num, ((Rat.den_eq_one_iff q).1 h).symm⟩

theorem den_one_intCast (k : ℤ) : ((k : ℚ)).den = 1 := Rat.den_intCast k

/-- A whole number of magnitude below 2^53 is a double. -/
theorem roundDouble_whole (q : ℚ) (hw : q.den = 1) (hb : |q| < 2 ^ 53) :
    roundDouble q = JSNum.fin q := by
  obtain ⟨k, rfl⟩ := exists_int_of_den_one q hw
  exact roundDouble_intCast k (natAbs_lt_of_abs_lt k hb)

theorem roundDouble_ne_nan (q : ℚ) : roundDouble q ≠ JSNum.nan := by
  unfold roundDouble
  split
  · simp
  · split
    · split <;> simp
    · split <;> simp

theorem roundMag_nonneg (a v : ℚ) (ha : 0 ≤ a) (h : roundMag a = some v) : 0 ≤ v := by
  unfold roundMag at h
  simp only at h
  split at h
  · simp at h
  · have := Option.some.inj h
    rw [← this]
    apply mul_nonneg
    · exact_mod_cast roundHalfEven_nonneg _ (div_nonneg ha (pow2_pos _).le)
    · exact (pow2_pos _).le

/-- The double nearest to a rational that is not negative is not negative,
or it is `Infinity`. -/
theorem roundDouble_nonneg (q : ℚ) (hq : 0 ≤ q) :
    roundDouble q = JSNum.inf ∨ ∃ x : ℚ, 0 ≤ x ∧ roundDouble q = JSNum.fin x := by
  unfold roundDouble
  by_cases h0 : q = 0
  · right; exact ⟨0, le_refl _, by simp [h0]⟩
  · have hpos : 0 < q := lt_of_le_of_ne hq (Ne.symm h0)
    rw [if_neg h0, if_pos hpos]
    cases hr : roundMag q with
    | none => left; rfl
    | some v => right; exact ⟨v, roundMag_nonneg q v hq hr, rfl⟩

theorem den_one_add (a b : ℚ) (ha : a.den = 1) (hb : b.den = 1) : (a + b).den = 1 := by
  obtain ⟨m, rfl⟩ := exists_int_of_den_one a ha
  obtain ⟨n, rfl⟩ := exists_int_of_den_one b hb
  rw [← Int.cast_add]
  exact den_one_intCast _

theorem den_one_sub (a b : ℚ) (ha : a.den = 1) (hb : b.den = 1) : (a - b).den = 1 := by
  obtain ⟨m, rfl⟩ := exists_int_of_den_one a ha
  obtain ⟨n, rfl⟩ := exists_int_of_den_one b hb
  rw [← Int.cast_sub]
  exact den_one_intCast _

theorem den_one_neg (a : ℚ) (ha : a.den = 1) : (-a).den = 1 := by
  obtain ⟨m, rfl⟩ := exists_int_of_den_one a ha
  rw [← Int.cast_neg]
  exact den_one_intCast _

/-- The sum of two whole numbers is exact when it stays below 2^53. -/
theorem num_add_exact (a b : ℚ) (ha : a.den = 1) (hb : b.den = 1) (h : |a + b| < 2 ^ 53) :
    (JSNum.fin a).add (JSNum.fin b) = JSNum.fin (a + b) :=
  roundDouble_whole (a + b) (den_one_add a b ha hb) h

/-- The difference of two whole numbers is exact when it stays below 2^53. -/
theorem num_sub_exact (a b : ℚ) (ha : a.den = 1) (hb : b.den = 1) (h : |a - b| < 2 ^ 53) :
    (JSNum.fin a).sub (JSNum.fin b) = JSNum.fin (a - b) :=
  roundDouble_whole (a - b) (den_one_sub a b ha hb) h

theorem num_ge_zero_iff (a : JSNum) : a.ge (JSNum.fin 0) = true ↔ AtLeastZero a := by
  cases a <;> simp [JSNum.ge, AtLeastZero]

theorem orZero_of_ne_nan (a : JSNum) (ha : a ≠ JSNum.nan) : a.orZero = a := by
  cases a with
  | nan => exact absurd rfl ha
  | fin q =>
    by_cases hq : q = 0 <;> simp [JSNum.orZero, JSNum.truthy, hq]
  | inf => rfl
  | ninf => rfl

/-- Adding a finite number to a number that is not `NaN` does not give `NaN`. -/
theorem add_fin_ne_nan (a : JSNum) (b : ℚ) (ha : a ≠ JSNum.nan) :
    a.add (JSNum.fin b) ≠ JSNum.nan := by
  cases a with
  | nan => exact absurd rfl ha
  | fin q => exact roundDouble_ne_nan _
  | inf => simp [JSNum.add]
  | ninf => simp [JSNum.add]

theorem absSum_nonneg (l : List JSNum) : 0 ≤ absSum l := by
  unfold absSum
  apply List.sum_nonneg
  intro x hx
  obtain ⟨a, _, rfl⟩ := List.mem_map.1 hx
  exact abs_nonneg _

theorem absSum_cons (a : JSNum) (l : List JSNum) : absSum (a :: l) = |a.val| + absSum l := by
  simp [absSum]

theorem exactSum_cons (a : JSNum) (l : List JSNum) :
    exactSum (a :: l) = a.val + exactSum l := by
  simp [exactSum]

theorem abs_exactSum_le (l : List JSNum) : |exactSum l| ≤ absSum l := by
  induction l with
  | nil => simp [exactSum, absSum]
  | cons a l ih =>
    rw [exactSum_cons, absSum_cons]
    exact (abs_add _ _).trans (add_le_add_left ih _)

theorem exactSum_den (l : List JSNum) (hl : ∀ a ∈ l, a.IsWhole) : (exactSum l).den = 1 := by
  induction l with
  | nil => simp [exactSum]
  | cons a l ih =>
    rw [exactSum_cons]
    apply den_one_add
    · have ha := hl a (List.mem_cons_self _ _)
      cases a with
      | fin q => exact ha
      | nan => exact absurd ha (fun h => h)
      | inf => exact absurd ha (fun h => h)
      | ninf => exact absurd ha (fun h => h)
    · exact ih (fun b hb => hl b (List.mem_cons_of_mem _ hb))

/-- Adding whole numbers one after the other is exact as long as the
magnitudes add up to less than 2^53. -/
theorem foldl_add_exact (l : List JSNum) (a : ℚ) (ha : a.den = 1)
    (hl : ∀ x ∈ l, x.IsWhole) (hb : |a| + absSum l < 2 ^ 53) :
    l.foldl JSNum.add (JSNum.fin a) = JSNum.fin (a + exactSum l) := by
  induction l generalizing a with
  | nil => simp [exactSum]
  | cons x xs ih =>
    have hx := hl x (List.mem_cons_self _ _)
    cases x with
    | fin q =>
      have hq : q.den = 1 := hx
      rw [absSum_cons] at hb
      have hxs := absSum_nonneg xs
      have h1 : |a + q| < 2 ^ 53 := by
        have := abs_add a q
        simp only [JSNum.val] at hb
        linarith
      rw [List.foldl_cons, num_add_exact a q ha hq h1,
        ih (a + q) (den_one_add a q ha hq) (fun y hy => hl y (List.mem_cons_of_mem _ hy))]
      · rw [exactSum_cons]
        simp only [JSNum.val]
        rw [add_assoc]
      · have := abs_add a q
        simp only [JSNum.val] at hb
        linarith
    | nan => exact absurd hx (fun h => h)
    | inf => exact absurd hx (fun h => h)
    | ninf => exact absurd hx (fun h => h)

/-- The sum of whole numbers whose magnitudes add up to less than 2^53 is
their exact sum. -/
theorem sumNums_exact (l : List JSNum) (h : WholeAmounts l) :
    sumNums l = JSNum.fin (exactSum l) := by
  have := foldl_add_exact l 0 (by simp) h.1 (by simpa using h.2)
  simpa [sumNums] using this

theorem wholeAmounts_of_sublist {l1 l2 : List JSNum} (hs : l1.Sublist l2)
    (h : WholeAmounts l2) : WholeAmounts l1 := by
  refine ⟨fun a ha => h.1 a (hs.subset ha), lt_of_le_of_lt ?_ h.2⟩
  unfold absSum
  exact List.Sublist.sum_le_sum (hs.map _) (by
    intro x hx
    obtain ⟨a, _, rfl⟩ := List.mem_map.1 hx
    exact abs_nonneg _)

/-! ## The error of a rounding -/

theorem pow2_eq_zpow (e : ℤ) : pow2 e = (2 : ℚ) ^ e := by
  unfold pow2
  split
  · rename_i h
    obtain ⟨n, rfl⟩ := Int.eq_ofNat_of_zero_le h
    simp
  · rename_i h
    obtain ⟨n, hn⟩ : ∃ n : ℕ, e = -(n : ℤ) := ⟨(-e).toNat, by omega⟩
    subst hn
    simp

theorem pow_log2Fuel_le (fuel n : Nat) (hn : 1 ≤ n) : 2 ^ log2Fuel fuel n ≤ n := by
  induction fuel generalizing n with
  | zero => simpa [log2Fuel] using hn
  | succ fuel ih =>
    unfold log2Fuel
    split
    · have := ih (n / 2) (by omega)
      rw [pow_succ]
      omega
    · simpa using hn

theorem lt_pow_log2Fuel (fuel n : Nat) (hn : n ≤ fuel) : n < 2 ^ (log2Fuel fuel n + 1) := by
  induction fuel generalizing n with
  | zero =>
    have : n = 0 := by omega
    subst this
    simp [log2Fuel]
  | succ fuel ih =>
    unfold log2Fuel
    split
    · have := ih (n / 2) (by omega)
      rw [pow_succ]
      omega
    · simp
      omega

/-- The exponent found for a positive rational is not above it. -/
theorem pow2_floorLog2_le (a : ℚ) (ha : 0 < a) : pow2 (floorLog2 a) ≤ a := by
  unfold floorLog2
  simp only
  split
  · assumption
  · have hnum : 0 < a.num := Rat.num_pos.2 ha
    have hn : 1 ≤ a.num.natAbs := by omega
    have h1 := pow_log2Fuel_le a.num.natAbs a.num.natAbs hn
    have h2 := lt_pow_log2Fuel a.den a.den le_rfl
    have ha1 : a = ((a.num.natAbs : ℕ) : ℚ) / ((a.den : ℕ) : ℚ) := by
      have e1 : ((a.num.natAbs : ℕ) : ℚ) = (a.num : ℚ) := by
        rw [← Int.cast_natCast, Int.natAbs_of_nonneg hnum.le]
      rw [e1]
      exact (Rat.num_div_den a).symm
    rw [pow2_eq_zpow]
    unfold bitLog
    generalize log2Fuel a.num.natAbs a.num.natAbs = bn at h1
    generalize log2Fuel a.den a.den = bd at h2
    have e2 : (2 : ℚ) ^ ((bn : ℤ) - (bd : ℤ) - 1) = (2 : ℚ) ^ bn / (2 : ℚ) ^ (bd + 1) := by
      rw [show (bn : ℤ) - (bd : ℤ) - 1 = (bn : ℤ) - ((bd + 1 : ℕ) : ℤ) by push_cast; ring,
        zpow_sub₀ (by norm_num), zpow_natCast, zpow_natCast]
    have hd : (0 : ℚ) < ((a.den : ℕ) : ℚ) := by exact_mod_cast a.den_pos
    rw [e2]
    conv_rhs => rw [ha1]
    rw [div_le_div_iff₀ (by positivity) hd]
    have h3 : 2 ^ bn * a.den ≤ a.num.natAbs * 2 ^ (bd + 1) := Nat.mul_le_mul h1 h2.le
    exact_mod_cast h3

theorem roundHalfEven_err (m : ℚ) : |(roundHalfEven m : ℚ) - m| ≤ 1 / 2 := by
  have h1 : (⌊m⌋ : ℚ) ≤ m := Int.floor_le m
  have h2 : m < (⌊m⌋ : ℚ) + 1 := Int.lt_floor_add_one m
  unfold roundHalfEven
  rw [abs_le]
  split
  · constructor <;> linarith
  · rename_i h3
    split
    · push_cast
      constructor <;> linarith
    · rename_i h4
      have h5 : m - ⌊m⌋ = 1 / 2 := le_antisymm (not_lt.1 h4) (not_lt.1 h3)
      split
      · constructor <;> linarith
      · push_cast
        constructor <;> linarith

/-- The multiple of the unit chosen for a positive rational `a` is within
`a / 2^53 + 2^-1075` of `a`. -/
theorem roundUnit_err (a : ℚ) (ha : 0 < a) :
    |(roundHalfEven (a / pow2 (max (floorLog2 a) (-1022) - 52)) : ℚ)
        * pow2 (max (floorLog2 a) (-1022) - 52) - a|
      ≤ a / 2 ^ 53 + 1 / 2 ^ 1075 := by
  have hle := pow2_floorLog2_le a ha
  have hp : pow2 (max (floorLog2 a) (-1022) - 52) / 2 ≤ a / 2 ^ 53 + 1 / 2 ^ 1075 := by
    rcases le_total (floorLog2 a) (-1022) with h | h
    · rw [max_eq_right h]
      have e : pow2 (-1022 - 52) / 2 = 1 / 2 ^ 1075 := by
        rw [pow2_eq_zpow]
        norm_num [zpow_neg]
      rw [e]
      have : 0 ≤ a / 2 ^ 53 := by positivity
      linarith
    · rw [max_eq_left h]
      have e : pow2 (floorLog2 a - 52) / 2 = pow2 (floorLog2 a) / 2 ^ 53 := by
        rw [pow2_eq_zpow, pow2_eq_zpow, zpow_sub₀ (by norm_num)]
        norm_num
        ring
      rw [e]
      have h1 : pow2 (floorLog2 a) / 2 ^ 53 ≤ a / 2 ^ 53 :=
        div_le_div_of_nonneg_right hle (by positivity)
      have : (0 : ℚ) ≤ 1 / 2 ^ 1075 := by positivity
      linarith
  generalize max (floorLog2 a) (-1022) - 52 = p at hp
  have hpp := pow2_pos p
  have herr := roundHalfEven_err (a / pow2 p)
  have e : (roundHalfEven (a / pow2 p) : ℚ) * pow2 p - a
      = ((roundHalfEven (a / pow2 p) : ℚ) - a / pow2 p) * pow2 p := by
    field_simp
  rw [e, abs_mul, abs_of_pos hpp]
  calc |(roundHalfEven (a / pow2 p) : ℚ) - a / pow2 p| * pow2 p
      ≤ 1 / 2 * pow2 p := mul_le_mul_of_nonneg_right herr hpp.le
    _ = pow2 p / 2 := by ring
    _ ≤ _ := hp

theorem pow2_1024 : pow2 1024 = 2 ^ 1024 := by
  rw [pow2_eq_zpow]
  exact zpow_natCast 2 1024

/-- A finite result of rounding a rational that is not negative is within
`q / 2^53 + 2^-1075` of it. -/
theorem roundDouble_err (q x : ℚ) (hq : 0 ≤ q) (h : roundDouble q = JSNum.fin x) :
    |x - q| ≤ q / 2 ^ 53 + 1 / 2 ^ 1075 := by
  unfold roundDouble at h
  by_cases h0 : q = 0
  · rw [if_pos h0] at h
    have hx : x = 0 := (JSNum.fin.inj h).symm
    rw [hx, h0]
    norm_num
  · have hpos : 0 < q := lt_of_le_of_ne hq (Ne.symm h0)
    rw [if_neg h0, if_pos hpos] at h
    have herr := roundUnit_err q hpos
    unfold roundMag at h
    simp only at h
    split at h
    · rename_i v hv
      split at hv
      · simp at hv
      · have hv1 := Option.some.inj hv
        have hx : v = x := JSNum.fin.inj h
        rw [← hx, ← hv1]
        exact herr
    · simp at h

/-- A rounding that overflows comes from a rational of at least 2^1023. -/
theorem roundDouble_inf (q : ℚ) (hq : 0 ≤ q) (h : roundDouble q = JSNum.inf) :
    2 ^ 1023 ≤ q := by
  unfold roundDouble at h
  by_cases h0 : q = 0
  · rw [if_pos h0] at h
    simp at h
  · have hpos : 0 < q := lt_of_le_of_ne hq (Ne.symm h0)
    rw [if_neg h0, if_pos hpos] at h
    have herr := roundUnit_err q hpos
    unfold roundMag at h
    simp only at h
    split at h
    · simp at h
    · rename_i hv
      split at hv
      · rename_i hbig
        rw [pow2_1024] at hbig
        rw [abs_le] at herr
        by_contra hlt
        push_neg at hlt
        have h1 : q / 2 ^ 53 ≤ q := by
          apply div_le_self hq
          norm_num
        have h2 : (1 : ℚ) / 2 ^ 1075 ≤ 1 := by
          apply div_le_one_of_le₀ _ (by positivity)
          exact one_le_pow₀ (by norm_num)
        have h3 : (2 : ℚ) ^ 1024 = 2 * 2 ^ 1023 := by norm_num
        have h4 : (1 : ℚ) ≤ 2 ^ 1023 := one_le_pow₀ (by norm_num)
        nlinarith
      · simp at hv
theorem roundDouble_err_coarse (q x : ℚ) (hq : 0 ≤ q) (h : roundDouble q = JSNum.fin x) :
    |x - q| ≤ q / 2 ^ 53 + 1 / 2 ^ 60 := by
  have h1 := roundDouble_err q x hq h
  have h2 : (1 : ℚ) / 2 ^ 1075 ≤ 1 / 2 ^ 60 := by
    apply one_div_le_one_div_of_le (by positivity)
    exact pow_le_pow_right₀ (by norm_num) (by norm_num)
  linarith

theorem roundDouble_inf_coarse (q : ℚ) (hq : 0 ≤ q) (h : roundDouble q = JSNum.inf) :
    2 ^ 10 ≤ q := by
  have h1 := roundDouble_inf q hq h
  have h2 : (2 : ℚ) ^ 10 ≤ 2 ^ 1023 := pow_le_pow_right₀ (by norm_num) (by norm_num)
  linarith

/-! ## Accumulation into an object -/

theorem sumNums_map (f : Transaction → JSNum) (l : List Transaction) :
    l.foldl (fun a t => a.add (f t)) (JSNum.fin 0) = sumNums (l.map f) := by
  unfold sumNums
  rw [List.foldl_map]

theorem valN_ownSet (o : JSObj) (k k' : String) (a : JSNum) :
    valN (ownSet o k (JSVal.num a)) k' = if k = k' then a else valN o k' := by
  unfold valN
  rw [ownGet_ownSet]
  by_cases h : k = k' <;> simp [h]

theorem clean_ownSet (o : JSObj) (k : String) (a : JSNum) (ha : a ≠ JSNum.nan)
    (ho : Clean o) : Clean (ownSet o k (JSVal.num a)) := by
  induction o with
  | nil =>
    intro p hp
    simp [ownSet] at hp
    exact ⟨a, ha, by rw [hp]⟩
  | cons p rest ih =>
    obtain ⟨k0, v0⟩ := p
    have hrest : Clean rest := fun p hp => ho p (List.mem_cons_of_mem _ hp)
    intro p hp
    by_cases h0 : k0 = k
    · simp only [ownSet, h0, if_true, List.mem_cons] at hp
      rcases hp with hp | hp
      · exact ⟨a, ha, by rw [hp]⟩
      · exact hrest p hp
    · simp only [ownSet, h0, if_false, List.mem_cons] at hp
      rcases hp with hp | hp
      · exact ho p (by rw [hp]; exact List.mem_cons_self _ _)
      · exact ih hrest p hp

theorem valN_ne_nan (o : JSObj) (k : String) (ho : Clean o) : valN o k ≠ JSNum.nan := by
  unfold valN
  cases hg : ownGet o k with
  | none => simp
  | some v =>
    obtain ⟨a, ha, hv⟩ := ho (k, v) (mem_of_ownGet o k v hg)
    simp only at hv
    subst hv
    exact ha

theorem objGet_clean (o : JSObj) (k : String) (ho : Clean o) (hk : k ∈ ownKeys o) :
    objGet o k = some (JSVal.num (valN o k)) := by
  have h1 := (ownGet_isSome_iff o k).2 hk
  cases hg : ownGet o k with
  | none => rw [hg] at h1; simp at h1
  | some v =>
    obtain ⟨a, _, hv⟩ := ho (k, v) (mem_of_ownGet o k v hg)
    simp only at hv
    simp [objGet, valN, hg, hv]

/-- One accumulation step on an object whose values are numbers other than
`NaN`: the value under the key becomes the old value, or 0, plus the amount. -/
theorem accumStep_clean (key : Transaction → String) (amt : Transaction → JSNum)
    (acc : JSObj) (t : Transaction) (ho : Clean acc) (hc : key t ∉ protoNames) :
    accumStep key amt acc t
      = ownSet acc (key t) (JSVal.num ((valN acc (key t)).add (amt t))) := by
  have hp : key t ≠ "__proto__" := by
    intro e
    apply hc
    rw [e]
    decide
  unfold accumStep objSet
  rw [if_neg hp]
  congr 1
  cases hg : ownGet acc (key t) with
  | none => simp [objGet, valN, hg, hc, orZeroVal, JSVal.addNum]
  | some v =>
    obtain ⟨a, ha, hv⟩ := ho (key t, v) (mem_of_ownGet acc (key t) v hg)
    simp only at hv
    subst hv
    simp [objGet, valN, hg, orZeroVal, JSVal.addNum, orZero_of_ne_nan a ha]

theorem amountsAt_cons (key : Transaction → String) (amt : Transaction → JSNum)
    (c : String) (t : Transaction) (ts : List Transaction) :
    amountsAt key amt c (t :: ts)
      = if key t = c then amt t :: amountsAt key amt c ts else amountsAt key amt c ts := by
  unfold amountsAt
  by_cases h : key t = c <;> simp [List.filter_cons, h]

/-- The state of the accumulator after folding a list of transactions whose
amounts are finite and whose keys are not inherited property names: the value
under each key is the old value with the amounts of that key added to it one
after the other. -/
theorem accumFold_clean (key : Transaction → String) (amt : Transaction → JSNum)
    (l : List Transaction) (acc : JSObj) (ho : Clean acc)
    (hn : ∀ t ∈ l, (amt t).IsFinite) (hc : ∀ t ∈ l, key t ∉ protoNames) :
    Clean (l.foldl (accumStep key amt) acc) ∧
    (∀ c, valN (l.foldl (accumStep key amt) acc) c
        = (amountsAt key amt c l).foldl JSNum.add (valN acc c)) ∧
    (∀ c, c ∈ ownKeys (l.foldl (accumStep key amt) acc)
        ↔ c ∈ ownKeys acc ∨ ∃ t ∈ l, key t = c) := by
  induction l generalizing acc with
  | nil => simpa [amountsAt] using ho
  | cons t ts ih =>
    have hnt : (amt t).IsFinite := hn t (List.mem_cons_self _ _)
    have hct : key t ∉ protoNames := hc t (List.mem_cons_self _ _)
    obtain ⟨a, ha⟩ : ∃ a, amt t = JSNum.fin a := by
      cases hamt : amt t with
      | fin a => exact ⟨a, rfl⟩
      | nan => rw [hamt] at hnt; exact absurd hnt (fun h => h)
      | inf => rw [hamt] at hnt; exact absurd hnt (fun h => h)
      | ninf => rw [hamt] at hnt; exact absurd hnt (fun h => h)
    have hstep := accumStep_clean key amt acc t ho hct
    have hne : (valN acc (key t)).add (amt t) ≠ JSNum.nan := by
      rw [ha]
      exact add_fin_ne_nan _ a (valN_ne_nan acc (key t) ho)
    have ho1 : Clean (accumStep key amt acc t) := by
      rw [hstep]
      exact clean_ownSet acc _ _ hne ho
    obtain ⟨i1, i2, i4⟩ := ih (accumStep key amt acc t) ho1
      (fun u hu => hn u (List.mem_cons_of_mem _ hu))
      (fun u hu => hc u (List.mem_cons_of_mem _ hu))
    rw [List.foldl_cons]
    refine ⟨i1, ?_, ?_⟩
    · intro c
      rw [i2 c, hstep, valN_ownSet, amountsAt_cons]
      by_cases hcc : key t = c
      · subst hcc
        simp
      · simp [hcc]
    · intro c
      rw [i4 c, hstep, mem_ownKeys_ownSet]
      constructor
      · rintro ((h1 | h1) | ⟨u, hu, hcu⟩)
        · exact Or.inl h1
        · exact Or.inr ⟨t, List.mem_cons_self _ _, h1.symm⟩
        · exact Or.inr ⟨u, List.mem_cons_of_mem _ hu, hcu⟩
      · rintro (h1 | ⟨u, hu, hcu⟩)
        · exact Or.inl (Or.inl h1)
        · rcases List.mem_cons.1 hu with e | e
          · subst e
            exact Or.inl (Or.inr hcu.symm)
          · exact Or.inr ⟨u, e, hcu⟩

/-- The object built by the accumulation from the empty object: its keys and
its values. The value under a key is the sum of the amounts of that key, added
one after the other in list order. -/
theorem accum_spec (key : Transaction → String) (amt : Transaction → JSNum)
    (l : List Transaction)
    (hn : ∀ t ∈ l, (amt t).IsFinite) (hc : ∀ t ∈ l, key t ∉ protoNames) :
    (∀ c, c ∈ ownKeys (l.foldl (accumStep key amt) []) ↔ ∃ t ∈ l, key t = c) ∧
    (∀ c ∈ ownKeys (l.foldl (accumStep key amt) []),
      objGet (l.foldl (accumStep key amt) []) c
        = some (JSVal.num (sumNums (amountsAt key amt c l)))) := by
  have hnil : Clean ([] : JSObj) := fun p hp => absurd hp (List.not_mem_nil p)
  obtain ⟨i1, i2, i4⟩ := accumFold_clean key amt l [] hnil hn hc
  refine ⟨?_, ?_⟩
  · intro c
    rw [i4 c]
    simp [ownKeys]
  · intro c hcmem
    rw [objGet_clean _ c i1 hcmem, i2 c]
    simp [valN, ownGet, sumNums]

theorem exactSum_objVals_cons (k0 : String) (v0 : JSVal) (rest : JSObj) :
    exactSum (objVals ((k0, v0) :: rest)) = (numOf v0).val + exactSum (objVals rest) := by
  simp [objVals, exactSum]

theorem absSum_objVals_cons (k0 : String) (v0 : JSVal) (rest : JSObj) :
    absSum (objVals ((k0, v0) :: rest)) = |(numOf v0).val| + absSum (objVals rest) := by
  simp [objVals, absSum]

theorem valN_cons_self (k : String) (v0 : JSVal) (rest : JSObj) :
    (valN ((k, v0) :: rest) k).val = (numOf v0).val := by
  cases v0 with
  | num a => simp [valN, ownGet, numOf]
  | text => simp [valN, ownGet, numOf, JSNum.val]

theorem valN_cons_ne (k0 k : String) (v0 : JSVal) (rest : JSObj) (h0 : ¬ k0 = k) :
    valN ((k0, v0) :: rest) k = valN rest k := by
  simp [valN, ownGet, h0]

theorem exactSum_objVals_ownSet (o : JSObj) (k : String) (a : JSNum) :
    exactSum (objVals (ownSet o k (JSVal.num a)))
      = exactSum (objVals o) - (valN o k).val + a.val := by
  induction o with
  | nil => simp [ownSet, objVals, exactSum, valN, ownGet, numOf, JSNum.val]
  | cons p rest ih =>
    obtain ⟨k0, v0⟩ := p
    by_cases h0 : k0 = k
    · subst h0
      simp only [ownSet, if_true]
      rw [exactSum_objVals_cons, exactSum_objVals_cons, valN_cons_self]
      simp only [numOf]
      ring
    · simp only [ownSet, h0, if_false]
      rw [exactSum_objVals_cons, exactSum_objVals_cons, valN_cons_ne k0 k v0 rest h0, ih]
      ring

theorem absSum_objVals_ownSet (o : JSObj) (k : String) (a : JSNum) :
    absSum (objVals (ownSet o k (JSVal.num a)))
      = absSum (objVals o) - |(valN o k).val| + |a.val| := by
  induction o with
  | nil => simp [ownSet, objVals, absSum, valN, ownGet, numOf, JSNum.val]
  | cons p rest ih =>
    obtain ⟨k0, v0⟩ := p
    by_cases h0 : k0 = k
    · subst h0
      simp only [ownSet, if_true]
      rw [absSum_objVals_cons, absSum_objVals_cons, valN_cons_self]
      simp only [numOf]
      ring
    · simp only [ownSet, h0, if_false]
      rw [absSum_objVals_cons, absSum_objVals_cons, valN_cons_ne k0 k v0 rest h0, ih]
      ring

theorem whole_ownSet (o : JSObj) (k : String) (a : JSNum) (ha : a.IsWhole)
    (ho : ∀ x ∈ objVals o, x.IsWhole) :
    ∀ x ∈ objVals (ownSet o k (JSVal.num a)), x.IsWhole := by
  induction o with
  | nil =>
    intro x hx
    simp [ownSet, objVals, numOf] at hx
    rw [hx]
    exact ha
  | cons p rest ih =>
    obtain ⟨k0, v0⟩ := p
    have hrest : ∀ x ∈ objVals rest, x.IsWhole := by
      intro x hx
      apply ho x
      simp only [objVals, List.map_cons, List.mem_cons]
      exact Or.inr hx
    have hhead : (numOf v0).IsWhole := by
      apply ho
      simp [objVals]
    intro x hx
    by_cases h0 : k0 = k
    · simp only [ownSet, h0, if_true, objVals, List.map_cons, List.mem_cons] at hx
      rcases hx with hx | hx
      · rw [hx]
        exact ha
      · exact hrest x hx
    · simp only [ownSet, h0, if_false, objVals, List.map_cons, List.mem_cons] at hx
      rcases hx with hx | hx
      · rw [hx]
        exact hhead
      · exact ih hrest x hx

theorem clean_of_whole (o : JSObj) (ho : ∀ x ∈ objVals o, x.IsWhole) : Clean o := by
  intro p hp
  have h1 : (numOf p.2).IsWhole := by
    apply ho
    simp only [objVals, List.mem_map]
    exact ⟨p, hp, rfl⟩
  cases hv : p.2 with
  | num a =>
    refine ⟨a, ?_, rfl⟩
    intro e
    rw [hv, e] at h1
    exact h1
  | text =>
    rw [hv] at h1
    exact absurd h1 (fun h => h)

theorem valN_whole (o : JSObj) (k : String) (ho : ∀ x ∈ objVals o, x.IsWhole) :
    (valN o k).IsWhole := by
  unfold valN
  cases hg : ownGet o k with
  | none =>
    show (0 : ℚ).den = 1
    simp
  | some v =>
    have hm := mem_of_ownGet o k v hg
    have h1 : (numOf v).IsWhole := by
      apply ho
      simp only [objVals, List.mem_map]
      exact ⟨(k, v), hm, rfl⟩
    cases v with
    | num a => exact h1
    | text => exact absurd h1 (fun h => h)

theorem abs_valN_le (o : JSObj) (k : String) : |(valN o k).val| ≤ absSum (objVals o) := by
  induction o with
  | nil => simp [valN, ownGet, JSNum.val, objVals, absSum]
  | cons p rest ih =>
    obtain ⟨k0, v0⟩ := p
    rw [absSum_objVals_cons]
    by_cases h0 : k0 = k
    · subst h0
      rw [valN_cons_self]
      have := absSum_nonneg (objVals rest)
      linarith
    · rw [valN_cons_ne k0 k v0 rest h0]
      have := abs_nonneg (numOf v0).val
      linarith

theorem exists_fin_of_whole (a : JSNum) (h : a.IsWhole) :
    ∃ q : ℚ, q.den = 1 ∧ a = JSNum.fin q := by
  cases a with
  | fin q => exact ⟨q, h, rfl⟩
  | nan => exact absurd h (fun h => h)
  | inf => exact absurd h (fun h => h)
  | ninf => exact absurd h (fun h => h)

/-- The accumulation of whole amounts whose magnitudes add up to less than
2^53 is exact: the values of the object stay whole, their sum grows by the sum
of the amounts and the sum of their magnitudes by no more than the magnitudes
of the amounts. -/
theorem accumFold_exact (key : Transaction → String) (amt : Transaction → JSNum)
    (l : List Transaction) (acc : JSObj) (ho : ∀ x ∈ objVals acc, x.IsWhole)
    (hw : ∀ t ∈ l, (amt t).IsWhole) (hc : ∀ t ∈ l, key t ∉ protoNames)
    (hb : absSum (objVals acc) + absSum (l.map amt) < 2 ^ 53) :
    (∀ x ∈ objVals (l.foldl (accumStep key amt) acc), x.IsWhole) ∧
    exactSum (objVals (l.foldl (accumStep key amt) acc))
      = exactSum (objVals acc) + exactSum (l.map amt) ∧
    absSum (objVals (l.foldl (accumStep key amt) acc))
      ≤ absSum (objVals acc) + absSum (l.map amt) := by
  induction l generalizing acc with
  | nil => simpa [exactSum, absSum] using ho
  | cons t ts ih =>
    have hct : key t ∉ protoNames := hc t (List.mem_cons_self _ _)
    obtain ⟨a, hada, ha⟩ := exists_fin_of_whole _ (hw t (List.mem_cons_self _ _))
    obtain ⟨v, hvd, hv⟩ := exists_fin_of_whole _ (valN_whole acc (key t) ho)
    have hvle := abs_valN_le acc (key t)
    rw [hv] at hvle
    simp only [JSNum.val] at hvle
    rw [List.map_cons, absSum_cons, ha] at hb
    simp only [JSNum.val] at hb
    have hts := absSum_nonneg (ts.map amt)
    have hsum : |v + a| < 2 ^ 53 := by
      have := abs_add v a
      linarith
    have hstep : accumStep key amt acc t
        = ownSet acc (key t) (JSVal.num (JSNum.fin (v + a))) := by
      rw [accumStep_clean key amt acc t (clean_of_whole acc ho) hct, hv, ha,
        num_add_exact v a hvd hada hsum]
    have ho1 : ∀ x ∈ objVals (accumStep key amt acc t), x.IsWhole := by
      rw [hstep]
      exact whole_ownSet acc _ _ (den_one_add v a hvd hada) ho
    have hex : exactSum (objVals (accumStep key amt acc t))
        = exactSum (objVals acc) + a := by
      rw [hstep, exactSum_objVals_ownSet, hv]
      simp only [JSNum.val]
      ring
    have hab : absSum (objVals (accumStep key amt acc t))
        ≤ absSum (objVals acc) + |a| := by
      rw [hstep, absSum_objVals_ownSet, hv]
      simp only [JSNum.val]
      have := abs_add v a
      linarith
    obtain ⟨i1, i2, i3⟩ := ih (accumStep key amt acc t) ho1
      (fun u hu => hw u (List.mem_cons_of_mem _ hu))
      (fun u hu => hc u (List.mem_cons_of_mem _ hu))
      (by linarith)
    rw [List.foldl_cons]
    refine ⟨i1, ?_, ?_⟩
    · rw [i2, hex, List.map_cons, exactSum_cons, ha]
      simp only [JSNum.val]
      ring
    · rw [List.map_cons, absSum_cons, ha]
      simp only [JSNum.val]
      linarith

theorem sumValues_clean (o : JSObj) (ho : Clean o) :
    sumValues o = JSVal.num (sumNums (objVals o)) := by
  have gen : ∀ (o : JSObj) (x : JSNum), Clean o →
      o.foldl (fun acc p => acc.add p.2) (JSVal.num x)
        = JSVal.num ((objVals o).foldl JSNum.add x) := by
    intro o
    induction o with
    | nil => intro x _; simp [objVals]
    | cons p rest ih =>
      intro x hn
      obtain ⟨a, _, hq⟩ := hn p (List.mem_cons_self _ _)
      have hrest : Clean rest := fun p hp => hn p (List.mem_cons_of_mem _ hp)
      have e2 : (JSVal.num x).add p.2 = JSVal.num (x.add a) := by
        rw [hq]
        rfl
      have e3 : objVals (p :: rest) = a :: objVals rest := by
        simp [objVals, hq, numOf]
      rw [List.foldl_cons, e2, e3, List.foldl_cons, ih (x.add a) hrest]
  unfold sumValues sumNums
  exact gen o _ ho

/-- The values of the object accumulated from whole amounts whose magnitudes
add up to less than 2^53 add up to the sum of the amounts. -/
theorem accum_total (key : Transaction → String) (amt : Transaction → JSNum)
    (l : List Transaction) (hw : WholeAmounts (l.map amt))
    (hc : ∀ t ∈ l, key t ∉ protoNames) :
    sumValues (l.foldl (accumStep key amt) []) = JSVal.num (sumNums (l.map amt)) := by
  have hnil : ∀ x ∈ objVals ([] : JSObj), x.IsWhole := by
    intro x hx
    simp [objVals] at hx
  have hw1 : ∀ t ∈ l, (amt t).IsWhole := fun t ht => hw.1 _ (List.mem_map_of_mem amt ht)
  obtain ⟨i1, i2, i3⟩ := accumFold_exact key amt l [] hnil hw1 hc
    (by simpa [objVals, absSum] using hw.2)
  have hb : absSum (objVals (l.foldl (accumStep key amt) [])) < 2 ^ 53 := by
    have : absSum (objVals ([] : JSObj)) = 0 := by simp [objVals, absSum]
    rw [this, zero_add] at i3
    exact lt_of_le_of_lt i3 hw.2
  rw [sumValues_clean _ (clean_of_whole _ i1), sumNums_exact _ ⟨i1, hb⟩, i2,
    sumNums_exact _ hw]
  simp [objVals, exactSum]

/-! ## Summary -/

theorem absSum_le_of_sublist {l1 l2 : List JSNum} (hs : l1.Sublist l2) :
    absSum l1 ≤ absSum l2 := by
  unfold absSum
  exact List.Sublist.sum_le_sum (hs.map _) (by
    intro x hx
    obtain ⟨a, _, rfl⟩ := List.mem_map.1 hx
    exact abs_nonneg _)

theorem absSum_partition (p : Transaction → Bool) (f : Transaction → JSNum)
    (l : List Transaction) :
    absSum ((l.filter p).map f) + absSum ((l.filter (fun t => !p t)).map f)
      = absSum (l.map f) := by
  induction l with
  | nil => simp [absSum]
  | cons t ts ih =>
    cases hp : p t
    · simp only [List.filter_cons, hp, Bool.false_eq_true, if_false, Bool.not_false,
        if_true, List.map_cons, absSum_cons]
      rw [← ih]
      ring
    · simp only [List.filter_cons, hp, if_true, Bool.not_true, Bool.false_eq_true,
        if_false, List.map_cons, absSum_cons]
      rw [← ih]
      ring

theorem amountsOfKind_sublist (k : String) (txns : List Transaction) :
    (amountsOfKind k txns).Sublist (txns.map (fun t => t.amount)) :=
  (List.filter_sublist _).map _

theorem amountsNotOfKind_sublist (k : String) (txns : List Transaction) :
    (amountsNotOfKind k txns).Sublist (txns.map (fun t => t.amount)) :=
  (List.filter_sublist _).map _

theorem amountsNotOfKind_income (txns : List Transaction)
    (hk : ∀ t ∈ txns, t.type = "income" ∨ t.type = "expense") :
    amountsNotOfKind "income" txns = amountsOfKind "expense" txns := by
  unfold amountsNotOfKind amountsOfKind
  congr 1
  apply List.filter_congr
  intro t ht
  rcases hk t ht with e | e <;> simp [e]

theorem absSum_kinds (txns : List Transaction) :
    absSum (amountsOfKind "income" txns) + absSum (amountsNotOfKind "income" txns)
      = absSum (txns.map (fun t => t.amount)) := by
  have h := absSum_partition (fun t => decide (t.type = "income")) (fun t => t.amount) txns
  have e : (fun t : Transaction => !decide (t.type = "income"))
      = (fun t : Transaction => decide (t.type ≠ "income")) := by
    funext t
    simp
  rw [e] at h
  exact h

theorem absSum_expense_le (txns : List Transaction) :
    absSum (amountsOfKind "expense" txns) ≤ absSum (amountsNotOfKind "income" txns) := by
  apply absSum_le_of_sublist
  unfold amountsOfKind amountsNotOfKind
  apply List.Sublist.map
  apply List.monotone_filter_right
  intro t ht
  have : t.type = "expense" := by simpa using ht
  rw [this]
  decide

theorem totalIncome_eq (txns : List Transaction) :
    (renderSummary txns).totalIncome = sumNums (amountsOfKind "income" txns) := by
  have hk : (fun t : Transaction => t.type == "income") =
      (fun t : Transaction => decide (t.type = "income")) := rfl
  simp only [renderSummary, amountsOfKind, hk]
  exact sumNums_map _ _

theorem totalExpenses_eq (txns : List Transaction) :
    (renderSummary txns).totalExpenses = sumNums (amountsOfKind "expense" txns) := by
  have hk : (fun t : Transaction => t.type == "expense") =
      (fun t : Transaction => decide (t.type = "expense")) := rfl
  simp only [renderSummary, amountsOfKind, hk]
  exact sumNums_map _ _

theorem balance_eq (txns : List Transaction) :
    (renderSummary txns).balance
      = (sumNums (amountsOfKind "income" txns)).sub (sumNums (amountsOfKind "expense" txns)) := by
  rw [← totalIncome_eq, ← totalExpenses_eq]
  rfl

/-- With whole amounts whose magnitudes add up to less than 2^53 the difference
of the income and the expense total is exact. -/
theorem balance_exact (txns : List Transaction)
    (hw : WholeAmounts (txns.map (fun t => t.amount))) :
    (sumNums (amountsOfKind "income" txns)).sub (sumNums (amountsOfKind "expense" txns))
      = JSNum.fin (exactSum (amountsOfKind "income" txns)
          - exactSum (amountsOfKind "expense" txns)) := by
  have hi := wholeAmounts_of_sublist (amountsOfKind_sublist "income" txns) hw
  have he := wholeAmounts_of_sublist (amountsOfKind_sublist "expense" txns) hw
  rw [sumNums_exact _ hi, sumNums_exact _ he]
  apply num_sub_exact _ _ (exactSum_den _ hi.1) (exactSum_den _ he.1)
  have h1 := abs_exactSum_le (amountsOfKind "income" txns)
  have h2 := abs_exactSum_le (amountsOfKind "expense" txns)
  have h3 := absSum_expense_le txns
  have h4 := absSum_kinds txns
  have h5 := hw.2
  have h6 := abs_sub (exactSum (amountsOfKind "income" txns))
    (exactSum (amountsOfKind "expense" txns))
  linarith

/-- C3. For every transaction list the summary has `totalIncome` equal to the
sum of the amounts of the income-kind transactions, `totalExpenses` equal to
the sum of the amounts of the expense-kind transactions and `balance` equal to
`totalIncome - totalExpenses`; the status line is the net-positive one exactly
when the balance is at least 0 and the net-negative one otherwise. The sums
and the difference are those of JavaScript numbers: the amounts are added in
list order, each addition rounded to the nearest double. When the amounts are
whole numbers whose magnitudes add up to less than 2^53 nothing is rounded and
the three figures are the exact sums and their exact difference. -/
theorem renderSummary_spec (txns : List Transaction) :
    (renderSummary txns).totalIncome = sumNums (amountsOfKind "income" txns) ∧
    (renderSummary txns).totalExpenses = sumNums (amountsOfKind "expense" txns) ∧
    (renderSummary txns).balance =
      (renderSummary txns).totalIncome.sub (renderSummary txns).totalExpenses ∧
    ((renderSummary txns).balanceSub = "You are net positive" ↔
      AtLeastZero (renderSummary txns).balance) ∧
    ((renderSummary txns).balanceSub = "You are net negative" ↔
      ¬ AtLeastZero (renderSummary txns).balance) ∧
    (WholeAmounts (txns.map (fun t => t.amount)) →
      (renderSummary txns).totalIncome
        = JSNum.fin (exactSum (amountsOfKind "income" txns)) ∧
      (renderSummary txns).totalExpenses
        = JSNum.fin (exactSum (amountsOfKind "expense" txns)) ∧
      (renderSummary txns).balance
        = JSNum.fin (exactSum (amountsOfKind "income" txns)
            - exactSum (amountsOfKind "expense" txns))) := by
  refine ⟨totalIncome_eq txns, totalExpenses_eq txns, rfl, ?_, ?_, ?_⟩
  · simp only [renderSummary]
    rw [← num_ge_zero_iff]
    split <;> simp_all
  · simp only [renderSummary]
    rw [← num_ge_zero_iff]
    split <;> simp_all
  · intro hw
    refine ⟨?_, ?_, ?_⟩
    · rw [totalIncome_eq]
      exact sumNums_exact _ (wholeAmounts_of_sublist (amountsOfKind_sublist "income" txns) hw)
    · rw [totalExpenses_eq]
      exact sumNums_exact _ (wholeAmounts_of_sublist (amountsOfKind_sublist "expense" txns) hw)
    · rw [balance_eq]
      exact balance_exact txns hw

/-- The summary of the filtered scenario list: income 4500, expenses 1200,
balance 3300, net positive. -/
theorem renderSummary_spec_witness :
    renderSummary (applyFilters (stdHost 0) scenarioFilter scenarioTxns)
      = { totalIncome := JSNum.fin 4500, totalExpenses := JSNum.fin 1200,
          balance := JSNum.fin 3300, balanceSub := "You are net positive" } ∧
    AtLeastZero
      (renderSummary (applyFilters (stdHost 0) scenarioFilter scenarioTxns)).balance :=
  ⟨by decide!,
    (renderSummary_spec (applyFilters (stdHost 0) scenarioFilter scenarioTxns)).2.2.2.1.1
      (by decide!)⟩

/-- Rounding shows in the summary: with an income of 0.3 and expenses of 0.1
and 0.2 the expenses add up to the double above 0.3, the balance is
`-2^-54` and the status line is the net-negative one. -/
theorem renderSummary_rounding_example :
    renderSummary balancedTenthsTxns
      = { totalIncome := JSNum.fin (5404319552844595 / 18014398509481984),
          totalExpenses := JSNum.fin (1351079888211149 / 4503599627370496),
          balance := JSNum.fin (-1 / 18014398509481984),
          balanceSub := "You are net negative" } := by
  decide!

/-! ## Aggregation by category -/

theorem totalExpenses_of_expenses (l : List Transaction)
    (hk : ∀ t ∈ l, t.type = "expense") :
    (renderSummary l).totalExpenses = sumNums (l.map (fun t => t.amount)) := by
  have hf : l.filter (fun t => t.type == "expense") = l := by
    apply List.filter_eq_self.2
    intro t ht
    simp [hk t ht]
  simp only [renderSummary, hf]
  exact sumNums_map _ _

/-- C4 (amended). For every list of expense-kind transactions whose amounts
are finite numbers and whose categories are not names of properties inherited
from `Object.prototype`, the keys of `aggregateByCategory(list)` are exactly
the categories that occur in the list and each category's value is the sum of
the amounts of the transactions of that category, added in list order as
JavaScript numbers. When the amounts are whole numbers whose magnitudes add up
to less than 2^53, so that no addition rounds, the sum of the values equals
the `totalExpenses` of the summary of the same list. -/
theorem aggregateByCategory_spec (txns : List Transaction)
    (hk : ∀ t ∈ txns, t.type = "expense")
    (hn : ∀ t ∈ txns, t.amount.IsFinite)
    (hc : ∀ t ∈ txns, t.category ∉ protoNames) :
    (∀ c, c ∈ ownKeys (aggregateByCategory txns) ↔ ∃ t ∈ txns, t.category = c) ∧
    (∀ c ∈ ownKeys (aggregateByCategory txns),
      objGet (aggregateByCategory txns) c
        = some (JSVal.num (sumNums (amountsOfCategory c txns)))) ∧
    (WholeAmounts (txns.map (fun t => t.amount)) →
      sumValues (aggregateByCategory txns)
        = JSVal.num (renderSummary txns).totalExpenses) := by
  obtain ⟨i2, i3⟩ := accum_spec (fun t => t.category) (fun t => t.amount) txns hn hc
  refine ⟨i2, i3, ?_⟩
  intro hw
  rw [totalExpenses_of_expenses txns hk]
  exact accum_total (fun t => t.category) (fun t => t.amount) txns hw hc

/-- The rent and the food entry of the scenario add up to 1430, the total of
the expenses. -/
theorem aggregateByCategory_spec_witness :
    (∀ t ∈ scenarioTxns.drop 1, t.type = "expense") ∧
    (∀ t ∈ scenarioTxns.drop 1, t.amount.IsFinite) ∧
    (∀ t ∈ scenarioTxns.drop 1, t.category ∉ protoNames) ∧
    WholeAmounts ((scenarioTxns.drop 1).map (fun t => t.amount)) ∧
    aggregateByCategory (scenarioTxns.drop 1)
      = [("Rent", JSVal.num (JSNum.fin 1200)), ("Food", JSVal.num (JSNum.fin 230))] ∧
    sumValues (aggregateByCategory (scenarioTxns.drop 1))
      = JSVal.num (renderSummary (scenarioTxns.drop 1)).totalExpenses :=
  ⟨by decide, by decide, by decide, ⟨by decide!, by decide!⟩, by decide!,
    (aggregateByCategory_spec (scenarioTxns.drop 1) (by decide) (by decide)
      (by decide)).2.2 ⟨by decide!, by decide!⟩⟩

/-- C4 fails as stated. With a `NaN` amount the accumulated value is reset by
`|| 0`: two food expenses of amounts `NaN` and 5 aggregate to 5 while
`totalExpenses` is `NaN`. With a category named like an inherited property
the accumulated value is not a number: an expense of 5 in the category
`constructor` aggregates to a string while `totalExpenses` is 5. With
fractional amounts the additions round, and the values are added in another
order than the amounts: expenses of 0.1, 0.1 and 1.1 in the categories Food,
Rent, Food give the values 1.2000000000000002 and 0.1, which add up to
1.3000000000000003, while `totalExpenses` is 1.3. -/
theorem aggregateByCategory_counterexample :
    ((∀ t ∈ nanTxns, t.type = "expense") ∧
      sumValues (aggregateByCategory nanTxns) = JSVal.num (JSNum.fin 5) ∧
      (renderSummary nanTxns).totalExpenses = JSNum.nan ∧
      objGet (aggregateByCategory nanTxns) "Food" = some (JSVal.num (JSNum.fin 5)) ∧
      sumNums (amountsOfCategory "Food" nanTxns) = JSNum.nan) ∧
    ((∀ t ∈ protoTxns, t.type = "expense") ∧
      sumValues (aggregateByCategory protoTxns) = JSVal.text ∧
      (renderSummary protoTxns).totalExpenses = JSNum.fin 5 ∧
      objGet (aggregateByCategory protoTxns) "constructor" = some JSVal.text) ∧
    ((∀ t ∈ tenthsTxns, t.type = "expense") ∧
      (∀ t ∈ tenthsTxns, t.amount.IsFinite) ∧
      (∀ t ∈ tenthsTxns, t.category ∉ protoNames) ∧
      aggregateByCategory tenthsTxns
        = [("Food", JSVal.num (JSNum.fin (1351079888211149 / 1125899906842624))),
           ("Rent", JSVal.num (JSNum.fin (3602879701896397 / 36028797018963968)))] ∧
      sumValues (aggregateByCategory tenthsTxns)
        = JSVal.num (JSNum.fin (2927339757790823 / 2251799813685248)) ∧
      (renderSummary tenthsTxns).totalExpenses
        = JSNum.fin (5854679515581645 / 4503599627370496)) := by
  decide!

/-! ## Signed amounts -/

theorem val_neg (a : JSNum) : a.neg.val = -a.val := by
  cases a <;> simp [JSNum.neg, JSNum.val]

theorem val_signedAmount (t : Transaction) :
    (signedAmount t).val = if t.type = "income" then t.amount.val else -t.amount.val := by
  unfold signedAmount
  by_cases hk : t.type = "income"
  · simp [hk]
  · simp [hk, val_neg]

theorem abs_val_signedAmount (t : Transaction) :
    |(signedAmount t).val| = |t.amount.val| := by
  rw [val_signedAmount]
  split
  · rfl
  · exact abs_neg _

theorem signedAmount_isFinite (t : Transaction) (ht : t.amount.IsFinite) :
    (signedAmount t).IsFinite := by
  unfold signedAmount
  cases ha : t.amount with
  | fin q => split <;> simp [JSNum.neg, JSNum.IsFinite]
  | nan => rw [ha] at ht; exact absurd ht (fun h => h)
  | inf => rw [ha] at ht; exact absurd ht (fun h => h)
  | ninf => rw [ha] at ht; exact absurd ht (fun h => h)

theorem signedAmount_isWhole (t : Transaction) (ht : t.amount.IsWhole) :
    (signedAmount t).IsWhole := by
  unfold signedAmount
  cases ha : t.amount with
  | fin q =>
    rw [ha] at ht
    split
    · exact ht
    · exact den_one_neg q ht
  | nan => rw [ha] at ht; exact absurd ht (fun h => h)
  | inf => rw [ha] at ht; exact absurd ht (fun h => h)
  | ninf => rw [ha] at ht; exact absurd ht (fun h => h)

theorem absSum_signed (l : List Transaction) :
    absSum (l.map signedAmount) = absSum (l.map (fun t => t.amount)) := by
  induction l with
  | nil => rfl
  | cons t ts ih =>
    rw [List.map_cons, List.map_cons, absSum_cons, absSum_cons, ih, abs_val_signedAmount]

theorem wholeAmounts_signed (l : List Transaction)
    (hw : WholeAmounts (l.map (fun t => t.amount))) : WholeAmounts (l.map signedAmount) := by
  refine ⟨?_, ?_⟩
  · intro a ha
    obtain ⟨t, ht, rfl⟩ := List.mem_map.1 ha
    exact signedAmount_isWhole t (hw.1 _ (List.mem_map_of_mem (fun t => t.amount) ht))
  · rw [absSum_signed]
    exact hw.2

/-- The exact sum of the signed amounts is the exact sum of the income
amounts minus the exact sum of the amounts of every other kind. -/
theorem exactSum_signed (l : List Transaction) :
    exactSum (l.map signedAmount)
      = exactSum (amountsOfKind "income" l) - exactSum (amountsNotOfKind "income" l) := by
  induction l with
  | nil => simp [exactSum, amountsOfKind, amountsNotOfKind]
  | cons t ts ih =>
    by_cases hk : t.type = "income"
    · have e1 : amountsOfKind "income" (t :: ts) = t.amount :: amountsOfKind "income" ts := by
        simp [amountsOfKind, List.filter_cons, hk]
      have e2 : amountsNotOfKind "income" (t :: ts) = amountsNotOfKind "income" ts := by
        simp [amountsNotOfKind, List.filter_cons, hk]
      rw [List.map_cons, exactSum_cons, e1, e2, exactSum_cons, ih, val_signedAmount, if_pos hk]
      ring
    · have e1 : amountsOfKind "income" (t :: ts) = amountsOfKind "income" ts := by
        simp [amountsOfKind, List.filter_cons, hk]
      have e2 : amountsNotOfKind "income" (t :: ts)
          = t.amount :: amountsNotOfKind "income" ts := by
        simp [amountsNotOfKind, List.filter_cons, hk]
      rw [List.map_cons, exactSum_cons, e1, e2, exactSum_cons, ih, val_signedAmount, if_neg hk]
      ring

/-- With whole amounts whose magnitudes add up to less than 2^53 the signed
amounts add up, in any order of addition, to the exact net. -/
theorem sumNums_signed_exact (l : List Transaction)
    (hw : WholeAmounts (l.map (fun t => t.amount))) :
    sumNums (l.map signedAmount)
      = JSNum.fin (exactSum (amountsOfKind "income" l)
          - exactSum (amountsNotOfKind "income" l)) := by
  rw [sumNums_exact _ (wholeAmounts_signed l hw), exactSum_signed]

/-- With whole amounts whose magnitudes add up to less than 2^53 the income
total minus the total of every other kind is exact. -/
theorem net_exact (l : List Transaction)
    (hw : WholeAmounts (l.map (fun t => t.amount))) :
    (sumNums (amountsOfKind "income" l)).sub (sumNums (amountsNotOfKind "income" l))
      = JSNum.fin (exactSum (amountsOfKind "income" l)
          - exactSum (amountsNotOfKind "income" l)) := by
  have hi := wholeAmounts_of_sublist (amountsOfKind_sublist "income" l) hw
  have he := wholeAmounts_of_sublist (amountsNotOfKind_sublist "income" l) hw
  rw [sumNums_exact _ hi, sumNums_exact _ he]
  apply num_sub_exact _ _ (exactSum_den _ hi.1) (exactSum_den _ he.1)
  have h1 := abs_exactSum_le (amountsOfKind "income" l)
  have h2 := abs_exactSum_le (amountsNotOfKind "income" l)
  have h4 := absSum_kinds l
  have h5 := hw.2
  have h6 := abs_sub (exactSum (amountsOfKind "income" l))
    (exactSum (amountsNotOfKind "income" l))
  linarith

theorem exactSum_perm {l1 l2 : List JSNum} (hp : l1.Perm l2) : exactSum l1 = exactSum l2 := by
  unfold exactSum
  exact (hp.map _).sum_eq

theorem absSum_perm {l1 l2 : List JSNum} (hp : l1.Perm l2) : absSum l1 = absSum l2 := by
  unfold absSum
  exact (hp.map _).sum_eq

theorem wholeAmounts_perm {l1 l2 : List JSNum} (hp : l1.Perm l2) (h : WholeAmounts l2) :
    WholeAmounts l1 :=
  ⟨fun a ha => h.1 a (hp.mem_iff.1 ha), by rw [absSum_perm hp]; exact h.2⟩

/-! ## Monthly net -/

theorem toDigitsCore_four (fuel n : Nat) (h1 : 1000 ≤ n) (h2 : n ≤ 9999) :
    Nat.toDigitsCore 10 (fuel + 4) n [] =
      [Nat.digitChar (n / 1000 % 10), Nat.digitChar (n / 100 % 10),
       Nat.digitChar (n / 10 % 10), Nat.digitChar (n % 10)] := by
  have a1 : n / 10 ≠ 0 := by omega
  have a2 : n / 10 / 10 ≠ 0 := by omega
  have a3 : n / 10 / 10 / 10 ≠ 0 := by omega
  have a4 : n / 10 / 10 / 10 / 10 = 0 := by omega
  have b2 : n / 10 / 10 = n / 100 := by omega
  have b3 : n / 10 / 10 / 10 = n / 1000 := by omega
  simp only [Nat.toDigitsCore, a1, a2, a3, a4, if_false, if_true]
  rw [b3, b2]

/-- A year from 1000 to 9999 prints as its four digits. -/
theorem toString_year (y : Nat) (h1 : 1000 ≤ y) (h2 : y ≤ 9999) :
    toString (y : Int) = fourDigits y := by
  have f : y + 1 = (y - 3) + 4 := by omega
  show toString (Int.ofNat y) = _
  simp only [toString, Nat.repr, Nat.toDigits, fourDigits]
  rw [f, toDigitsCore_four _ y h1 h2]
  rfl

/-- A month number pads to its two digits. -/
theorem padStart2_month (m : Nat) (h1 : 1 ≤ m) (h2 : m ≤ 12) :
    padStart2 (toString m) = twoDigits m := by
  interval_cases m <;> decide

theorem writtenMonth_isoString (y m d : Nat) :
    writtenMonth (isoString y m d) = fourDigits y ++ "-" ++ twoDigits m := by
  apply String.ext
  simp [writtenMonth, isoString, fourDigits, twoDigits, String.data_append]

/-- A date the host reads back as written gets the month written in it as
its key. -/
theorem monthKey_of_readsBack (h : Host) (date : String) (hr : ReadsBack h date) :
    monthKey h date = writtenMonth date := by
  obtain ⟨y, m, d, tv, hy1, hy2, hm1, hm2, hs, hp, hy, hm⟩ := hr
  unfold monthKey
  rw [hp]
  simp only
  rw [hy, hm, toString_year y hy1 hy2, padStart2_month m hm1 hm2, hs, writtenMonth_isoString]

/-- A month key is never the name of an inherited property: it contains a
hyphen. -/
theorem monthKey_not_proto (h : Host) (date : String) : monthKey h date ∉ protoNames := by
  have hmem : '-' ∈ (monthKey h date).data := by
    unfold monthKey
    cases h.dateParse date <;> simp [String.data_append]
  intro hin
  have hall : ∀ n ∈ protoNames, '-' ∉ n.data := by decide
  exact hall _ hin hmem

theorem groupByMonthNet_eq_fold (h : Host) (txns : List Transaction) :
    groupByMonthNet h txns
      = txns.foldl (accumStep (fun t => monthKey h t.date) signedAmount) [] := rfl

theorem monthOther_eq_monthExpense (txns : List Transaction) (k : String)
    (hk : ∀ t ∈ txns, t.type = "income" ∨ t.type = "expense") :
    monthOther k txns = monthExpense k txns := by
  unfold monthOther monthExpense
  congr 1
  apply List.filter_congr
  intro t ht
  rcases hk t ht with e | e <;> simp [e]

/-- With local time equal to UTC the host reads the dates of the scenario
back as written. -/
theorem scenario_readsBack : ∀ t ∈ scenarioTxns, ReadsBack (stdHost 0) t.date := by
  intro t ht
  simp only [scenarioTxns, List.mem_cons, List.mem_singleton, List.not_mem_nil,
    or_false] at ht
  rcases ht with rfl | rfl | rfl
  · exact ⟨2024, 1, 5, 1704412800000, by decide, by decide, by decide, by decide,
      by decide, by decide, by decide, by decide⟩
  · exact ⟨2024, 1, 10, 1704844800000, by decide, by decide, by decide, by decide,
      by decide, by decide, by decide, by decide⟩
  · exact ⟨2024, 2, 1, 1706745600000, by decide, by decide, by decide, by decide,
      by decide, by decide, by decide, by decide⟩

theorem monthIncome_eq (k : String) (txns : List Transaction) :
    monthIncome k txns
      = amountsOfKind "income" (txns.filter (fun t => decide (writtenMonth t.date = k))) := by
  unfold monthIncome amountsOfKind
  rw [List.filter_filter]
  congr 2
  funext t
  simp [and_comm]

theorem monthOther_eq (k : String) (txns : List Transaction) :
    monthOther k txns
      = amountsNotOfKind "income"
          (txns.filter (fun t => decide (writtenMonth t.date = k))) := by
  unfold monthOther amountsNotOfKind
  rw [List.filter_filter]
  congr 2
  funext t
  simp [and_comm]

/-- The amounts a month receives are the signed amounts of the transactions
whose written month it is, when the host reads the dates back as written. -/
theorem amountsAt_month (h : Host) (txns : List Transaction) (k : String)
    (hd : ∀ t ∈ txns, ReadsBack h t.date) :
    amountsAt (fun t => monthKey h t.date) signedAmount k txns = monthSigned k txns := by
  have hf : txns.filter (fun t => decide (monthKey h t.date = k))
      = txns.filter (fun t => decide (writtenMonth t.date = k)) := by
    apply List.filter_congr
    intro t ht
    rw [monthKey_of_readsBack h t.date (hd t ht)]
  unfold amountsAt monthSigned
  rw [hf]

/-- With whole amounts whose magnitudes add up to less than 2^53 the signed
amounts of a month add up to the income of the month minus the rest of the
month, and that difference is exact. -/
theorem sumNums_month (txns : List Transaction) (k : String)
    (hw : WholeAmounts (txns.map (fun t => t.amount))) :
    sumNums (monthSigned k txns)
      = (sumNums (monthIncome k txns)).sub (sumNums (monthOther k txns)) ∧
    (sumNums (monthIncome k txns)).sub (sumNums (monthOther k txns))
      = JSNum.fin (exactSum (monthIncome k txns) - exactSum (monthOther k txns)) := by
  have hm : WholeAmounts
      ((txns.filter (fun t => decide (writtenMonth t.date = k))).map (fun t => t.amount)) :=
    wholeAmounts_of_sublist ((List.filter_sublist _).map _) hw
  rw [monthIncome_eq, monthOther_eq]
  unfold monthSigned
  rw [sumNums_signed_exact _ hm, net_exact _ hm]
  exact ⟨rfl, rfl⟩

/-- C6 (amended). For every transaction list whose amounts are finite numbers
and whose dates the host reads back as written (valid `YYYY-MM-DD` dates with
a year of four digits from 1000 on, whose local year and month are the ones
written), `groupByMonthNet` returns a mapping whose keys are exactly the
`YYYY-MM` months in which some transaction of the list is dated, and whose
value for each month is the sum, added in list order as JavaScript numbers, of
that month's amounts, an income counted as it is and every other kind with its
sign changed. When the amounts are whole numbers whose magnitudes add up to
less than 2^53, so that no addition rounds, the value is the sum of that
month's income amounts minus the sum of that month's amounts of every other
kind, exactly; when in addition every kind is income or expense this is the
income minus the expenses of the month. -/
theorem groupByMonthNet_spec (h : Host) (txns : List Transaction)
    (hn : ∀ t ∈ txns, t.amount.IsFinite) (hd : ∀ t ∈ txns, ReadsBack h t.date) :
    (∀ k, k ∈ ownKeys (groupByMonthNet h txns) ↔ ∃ t ∈ txns, writtenMonth t.date = k) ∧
    (∀ k ∈ ownKeys (groupByMonthNet h txns),
      objGet (groupByMonthNet h txns) k
        = some (JSVal.num (sumNums (monthSigned k txns)))) ∧
    (WholeAmounts (txns.map (fun t => t.amount)) →
      ∀ k ∈ ownKeys (groupByMonthNet h txns),
        objGet (groupByMonthNet h txns) k
          = some (JSVal.num ((sumNums (monthIncome k txns)).sub
              (sumNums (monthOther k txns)))) ∧
        (sumNums (monthIncome k txns)).sub (sumNums (monthOther k txns))
          = JSNum.fin (exactSum (monthIncome k txns) - exactSum (monthOther k txns)) ∧
        ((∀ t ∈ txns, t.type = "income" ∨ t.type = "expense") →
          objGet (groupByMonthNet h txns) k
            = some (JSVal.num ((sumNums (monthIncome k txns)).sub
                (sumNums (monthExpense k txns)))))) := by
  obtain ⟨i2, i3⟩ := accum_spec (fun t => monthKey h t.date) signedAmount txns
    (fun t ht => signedAmount_isFinite t (hn t ht))
    (fun t _ => monthKey_not_proto h t.date)
  rw [← groupByMonthNet_eq_fold] at i2 i3
  have hval : ∀ k ∈ ownKeys (groupByMonthNet h txns),
      objGet (groupByMonthNet h txns) k
        = some (JSVal.num (sumNums (monthSigned k txns))) := by
    intro k hk
    rw [i3 k hk, amountsAt_month h txns k hd]
  refine ⟨?_, hval, ?_⟩
  · intro k
    rw [i2 k]
    constructor
    · rintro ⟨t, ht, e⟩
      exact ⟨t, ht, by rw [← monthKey_of_readsBack h t.date (hd t ht)]; exact e⟩
    · rintro ⟨t, ht, e⟩
      exact ⟨t, ht, by rw [monthKey_of_readsBack h t.date (hd t ht)]; exact e⟩
  · intro hw k hkm
    obtain ⟨e1, e2⟩ := sumNums_month txns k hw
    refine ⟨?_, e2, ?_⟩
    · rw [hval k hkm, e1]
    · intro hk
      rw [hval k hkm, e1, monthOther_eq_monthExpense txns k hk]

/-- The scenario list gives the months January and February 2024, with the
nets 3300 and -230. -/
theorem groupByMonthNet_spec_witness :
    (∀ t ∈ scenarioTxns, t.amount.IsFinite) ∧
    (∀ t ∈ scenarioTxns, ReadsBack (stdHost 0) t.date) ∧
    WholeAmounts (scenarioTxns.map (fun t => t.amount)) ∧
    (∀ k, k ∈ ownKeys (groupByMonthNet (stdHost 0) scenarioTxns)
      ↔ ∃ t ∈ scenarioTxns, writtenMonth t.date = k) ∧
    objGet (groupByMonthNet (stdHost 0) scenarioTxns) "2024-01"
      = some (JSVal.num ((sumNums (monthIncome "2024-01" scenarioTxns)).sub
          (sumNums (monthOther "2024-01" scenarioTxns)))) ∧
    groupByMonthNet (stdHost 0) scenarioTxns
      = [("2024-01", JSVal.num (JSNum.fin 3300)), ("2024-02", JSVal.num (JSNum.fin (-230)))] :=
  ⟨by decide, scenario_readsBack, ⟨by decide!, by decide!⟩,
    (groupByMonthNet_spec (stdHost 0) scenarioTxns (by decide) scenario_readsBack).1,
    ((groupByMonthNet_spec (stdHost 0) scenarioTxns (by decide) scenario_readsBack).2.2
      ⟨by decide!, by decide!⟩ "2024-01" (by decide!)).1,
    by decide!⟩

/-- C6 fails as stated. A transaction of a kind other than income and expense
is subtracted from its month; a `NaN` amount is reset by `|| 0`; where local
time is behind UTC a date is keyed under the month of the day before; a year
below 1000 is printed without padding; and with fractional amounts the
additions round: an income of 0.2, an expense of 0.9 and an income of 0.7 in
one month are stored as 0, while the income total minus the expense total is
`-2^-53`. -/
theorem groupByMonthNet_counterexample :
    (objGet (groupByMonthNet (stdHost 0) transferTxns) "2024-01"
        = some (JSVal.num (JSNum.fin (-10))) ∧
      (sumNums (monthIncome "2024-01" transferTxns)).sub
        (sumNums (monthExpense "2024-01" transferTxns)) = JSNum.fin 0) ∧
    (objGet (groupByMonthNet (stdHost 0) nanTxns) "2024-01"
        = some (JSVal.num (JSNum.fin (-5))) ∧
      (sumNums (monthIncome "2024-01" nanTxns)).sub
        (sumNums (monthExpense "2024-01" nanTxns)) = JSNum.nan) ∧
    ((parseIsoDate "2024-02-01").isSome = true ∧
      ownKeys (groupByMonthNet (stdHost (-300)) februaryTxns) = ["2024-01"]) ∧
    ((parseIsoDate "0999-01-05").isSome = true ∧
      ownKeys (groupByMonthNet (stdHost 0) earlyTxns) = ["999-01"]) ∧
    ((∀ t ∈ mixedTenthsTxns, t.amount.IsFinite) ∧
      (∀ t ∈ mixedTenthsTxns, t.type = "income" ∨ t.type = "expense") ∧
      (∀ t ∈ mixedTenthsTxns, writtenMonth t.date = "2024-01") ∧
      groupByMonthNet (stdHost 0) mixedTenthsTxns
        = [("2024-01", JSVal.num (JSNum.fin 0))] ∧
      sumNums (monthIncome "2024-01" mixedTenthsTxns)
        = JSNum.fin (2026619832316723 / 2251799813685248) ∧
      sumNums (monthExpense "2024-01" mixedTenthsTxns)
        = JSNum.fin (8106479329266893 / 9007199254740992) ∧
      (sumNums (monthIncome "2024-01" mixedTenthsTxns)).sub
        (sumNums (monthExpense "2024-01" mixedTenthsTxns))
        = JSNum.fin (-1 / 9007199254740992)) := by
  decide!

/-! ## The three net figures -/

theorem tableOrder_perm (sort : List Transaction → List Transaction)
    (hperm : ∀ l, (sort l).Perm l) (txns : List Transaction) :
    (tableOrder sort txns).Perm txns := by
  unfold tableOrder
  split
  · exact List.Perm.refl _
  · exact hperm txns

/-- The total of the footer is the sum of the signed amounts, added in the
order the table shows the transactions. -/
theorem footer_total_eq (sort : List Transaction → List Transaction)
    (txns : List Transaction) :
    (renderTableFooter sort txns).total
      = sumNums ((tableOrder sort txns).map signedAmount) :=
  sumNums_map signedAmount (tableOrder sort txns)

/-- With whole amounts whose magnitudes add up to less than 2^53 the values of
the monthly series add up to the exact net. -/
theorem monthly_sum_exact (h : Host) (txns : List Transaction)
    (hw : WholeAmounts (txns.map (fun t => t.amount))) :
    sumValues (groupByMonthNet h txns)
      = JSVal.num (JSNum.fin (exactSum (amountsOfKind "income" txns)
          - exactSum (amountsNotOfKind "income" txns))) := by
  rw [groupByMonthNet_eq_fold,
    accum_total (fun t => monthKey h t.date) signedAmount txns (wholeAmounts_signed txns hw)
      (fun t _ => monthKey_not_proto h t.date),
    sumNums_signed_exact txns hw]

/-- C14 (amended). For every transaction list the table footer's net total is
the sum of the signed amounts (an income as it is, every other kind with its
sign changed) added as JavaScript numbers in the order of the table, and the
summary balance is the income total minus the total of the amounts of kind
exactly expense. When the amounts are whole numbers whose magnitudes add up to
less than 2^53, so that no addition rounds, the footer total and the sum of
all values of `groupByMonthNet`, on the list as given and on the list as the
table has sorted it, are the exact income minus the exact amounts of every
other kind, whether or not the dates are valid, and the balance is the exact
income minus the exact expenses; when in addition each kind is income or
expense the three figures agree. -/
theorem netFigures_spec (h : Host) (sort : List Transaction → List Transaction)
    (txns : List Transaction) (hperm : ∀ l, (sort l).Perm l) :
    (renderTableFooter sort txns).total
      = sumNums ((tableOrder sort txns).map signedAmount) ∧
    (renderSummary txns).balance
      = (sumNums (amountsOfKind "income" txns)).sub
          (sumNums (amountsOfKind "expense" txns)) ∧
    (WholeAmounts (txns.map (fun t => t.amount)) →
      (renderTableFooter sort txns).total
        = JSNum.fin (exactSum (amountsOfKind "income" txns)
            - exactSum (amountsNotOfKind "income" txns)) ∧
      sumValues (groupByMonthNet h txns)
        = JSVal.num (JSNum.fin (exactSum (amountsOfKind "income" txns)
            - exactSum (amountsNotOfKind "income" txns))) ∧
      sumValues (groupByMonthNet h (tableOrder sort txns))
        = JSVal.num (JSNum.fin (exactSum (amountsOfKind "income" txns)
            - exactSum (amountsNotOfKind "income" txns))) ∧
      (renderSummary txns).balance
        = JSNum.fin (exactSum (amountsOfKind "income" txns)
            - exactSum (amountsOfKind "expense" txns)) ∧
      ((∀ t ∈ txns, t.type = "income" ∨ t.type = "expense") →
        (renderTableFooter sort txns).total = (renderSummary txns).balance ∧
        sumValues (groupByMonthNet h txns) = JSVal.num (renderSummary txns).balance ∧
        sumValues (groupByMonthNet h (tableOrder sort txns))
          = JSVal.num (renderTableFooter sort txns).total)) := by
  have hfoot := footer_total_eq sort txns
  refine ⟨hfoot, balance_eq txns, ?_⟩
  intro hw
  have hp := tableOrder_perm sort hperm txns
  have hws : WholeAmounts ((tableOrder sort txns).map (fun t => t.amount)) :=
    wholeAmounts_perm (hp.map _) hw
  have hnet : exactSum (amountsOfKind "income" (tableOrder sort txns))
        - exactSum (amountsNotOfKind "income" (tableOrder sort txns))
      = exactSum (amountsOfKind "income" txns)
        - exactSum (amountsNotOfKind "income" txns) := by
    rw [← exactSum_signed, ← exactSum_signed]
    exact exactSum_perm (hp.map signedAmount)
  have h1 : (renderTableFooter sort txns).total
      = JSNum.fin (exactSum (amountsOfKind "income" txns)
          - exactSum (amountsNotOfKind "income" txns)) := by
    rw [hfoot, sumNums_signed_exact _ hws, hnet]
  have h2 := monthly_sum_exact h txns hw
  have h3 : sumValues (groupByMonthNet h (tableOrder sort txns))
      = JSVal.num (JSNum.fin (exactSum (amountsOfKind "income" txns)
          - exactSum (amountsNotOfKind "income" txns))) := by
    rw [monthly_sum_exact h _ hws, hnet]
  have h4 : (renderSummary txns).balance
      = JSNum.fin (exactSum (amountsOfKind "income" txns)
          - exactSum (amountsOfKind "expense" txns)) := by
    rw [balance_eq]
    exact balance_exact txns hw
  refine ⟨h1, h2, h3, h4, ?_⟩
  intro hk
  have hfb : (renderTableFooter sort txns).total = (renderSummary txns).balance := by
    rw [h1, h4, amountsNotOfKind_income txns hk]
  refine ⟨hfb, ?_, ?_⟩
  · rw [h2, ← h1, hfb]
  · rw [h3, h1]

/-- The three figures of the scenario list agree on 3070. -/
theorem netFigures_spec_witness :
    (∀ l, (sortByDateDesc (stdHost 0) l).Perm l) ∧
    (∀ t ∈ scenarioTxns, t.type = "income" ∨ t.type = "expense") ∧
    WholeAmounts (scenarioTxns.map (fun t => t.amount)) ∧
    (renderTableFooter (sortByDateDesc (stdHost 0)) scenarioTxns).total
      = (renderSummary scenarioTxns).balance ∧
    sumValues (groupByMonthNet (stdHost 0) scenarioTxns)
      = JSVal.num (renderSummary scenarioTxns).balance ∧
    (renderSummary scenarioTxns).balance = JSNum.fin 3070 :=
  ⟨fun l => List.perm_insertionSort _ l, by decide, ⟨by decide!, by decide!⟩,
    (((netFigures_spec (stdHost 0) (sortByDateDesc (stdHost 0)) scenarioTxns
      (fun l => List.perm_insertionSort _ l)).2.2 ⟨by decide!, by decide!⟩).2.2.2.2
        (by decide)).1,
    (((netFigures_spec (stdHost 0) (sortByDateDesc (stdHost 0)) scenarioTxns
      (fun l => List.perm_insertionSort _ l)).2.2 ⟨by decide!, by decide!⟩).2.2.2.2
        (by decide)).2.1,
    by decide!⟩

/-- C14 fails as stated. For two expenses dated in January 2024, the later one
with the amount `NaN`, the footer and the balance are `NaN` while the values
of the monthly series add up to -5, on the list as given and as sorted. And
with fractional amounts the additions round: for an income of 0.2, an expense
of 0.9 and an income of 0.7, kinds income and expense only and valid dates,
the footer total and the monthly series give 0 while the balance is
`-2^-53`. -/
theorem netFigures_counterexample :
    ((∀ t ∈ nanLatestTxns, t.type = "income" ∨ t.type = "expense") ∧
      (∀ t ∈ nanLatestTxns, ((stdHost 0).dateParse t.date).isSome = true) ∧
      tableOrder (sortByDateDesc (stdHost 0)) nanLatestTxns = nanLatestTxns ∧
      (renderTableFooter (sortByDateDesc (stdHost 0)) nanLatestTxns).total = JSNum.nan ∧
      (renderSummary nanLatestTxns).balance = JSNum.nan ∧
      sumValues (groupByMonthNet (stdHost 0) nanLatestTxns) = JSVal.num (JSNum.fin (-5)) ∧
      sumValues (groupByMonthNet (stdHost 0)
          (tableOrder (sortByDateDesc (stdHost 0)) nanLatestTxns))
        = JSVal.num (JSNum.fin (-5))) ∧
    ((∀ t ∈ mixedTenthsTxns, t.type = "income" ∨ t.type = "expense") ∧
      (∀ t ∈ mixedTenthsTxns, t.amount.IsFinite) ∧
      (∀ t ∈ mixedTenthsTxns, ((stdHost 0).dateParse t.date).isSome = true) ∧
      tableOrder (sortByDateDesc (stdHost 0)) mixedTenthsTxns = mixedTenthsTxns ∧
      (renderTableFooter (sortByDateDesc (stdHost 0)) mixedTenthsTxns).total
        = JSNum.fin 0 ∧
      (renderSummary mixedTenthsTxns).balance = JSNum.fin (-1 / 9007199254740992) ∧
      sumValues (groupByMonthNet (stdHost 0) mixedTenthsTxns)
        = JSVal.num (JSNum.fin 0)) := by
  decide!

/-! ## Budgets -/

theorem min_intCast (n : ℤ) : min (100 : ℚ) (n : ℚ) = ((min 100 n : ℤ) : ℚ) := by
  push_cast
  rfl

/-- The product `(used / limit) * 100` as the program computes it, for a used
amount that is not negative and a positive limit: it overflows only when the
exact quotient is above 2, and otherwise it is a double that is within
`2^-40` of the exact product when the quotient is at most 2, and at least
100.5 when the quotient is above 2. -/
theorem budget_product (u l : ℚ) (hu : 0 ≤ u) (hl : 0 < l) :
    (((JSNum.fin u).div (JSNum.fin l)).mul (JSNum.fin 100) = JSNum.inf ∧ 2 < u / l) ∨
    (∃ x : ℚ, 0 ≤ x ∧ ((JSNum.fin u).div (JSNum.fin l)).mul (JSNum.fin 100) = JSNum.fin x ∧
      (u / l ≤ 2 → |x - u / l * 100| ≤ 1 / 2 ^ 40) ∧
      (2 < u / l → 201 / 2 ≤ x)) := by
  have hl0 : l ≠ 0 := ne_of_gt hl
  have hdiv : (JSNum.fin u).div (JSNum.fin l) = roundDouble (u / l) := by
    simp [JSNum.div, hl0]
  have hinf : (JSNum.inf).mul (JSNum.fin 100) = JSNum.inf := by decide!
  have hr : 0 ≤ u / l := div_nonneg hu hl.le
  rw [hdiv]
  generalize u / l = r at hr
  rcases roundDouble_nonneg r hr with hq | ⟨d, hd, hq⟩
  · left
    rw [hq, hinf]
    have := roundDouble_inf_coarse r hr hq
    refine ⟨rfl, ?_⟩
    norm_num at this
    linarith
  · have hmul : (JSNum.fin d).mul (JSNum.fin 100) = roundDouble (d * 100) := rfl
    have hd100 : 0 ≤ d * 100 := by positivity
    have e1 := roundDouble_err_coarse r d hr hq
    rw [abs_le] at e1
    have k1 : r / 2 ^ 53 ≤ r / 2 := by
      apply div_le_div_of_nonneg_left hr (by norm_num) (by norm_num)
    have k2 : (1 : ℚ) / 2 ^ 60 ≤ 1 / 2 ^ 53 := by norm_num
    rw [hq, hmul]
    rcases roundDouble_nonneg (d * 100) hd100 with hx | ⟨x, hx0, hx⟩
    · left
      have := roundDouble_inf_coarse (d * 100) hd100 hx
      refine ⟨hx, ?_⟩
      norm_num at this k2
      linarith
    · right
      have e2 := roundDouble_err_coarse (d * 100) x hd100 hx
      rw [abs_le] at e2
      refine ⟨x, hx0, hx, ?_, ?_⟩
      · intro hr2
        rw [abs_le]
        have a1 : r / 2 ^ 53 ≤ 2 / 2 ^ 53 := div_le_div_of_nonneg_right hr2 (by positivity)
        have a2 : d ≤ 3 := by
          norm_num at a1 k2 e1
          linarith
        have a3 : d * 100 / 2 ^ 53 ≤ 300 / 2 ^ 53 :=
          div_le_div_of_nonneg_right (by linarith) (by positivity)
        norm_num at a1 a3 e1 e2 ⊢
        constructor <;> linarith
      · intro hr2
        have b1 : r / 2 ^ 53 ≤ r / 4 := by
          apply div_le_div_of_nonneg_left hr (by norm_num) (by norm_num)
        have b2 : (3 : ℚ) / 2 - 1 / 2 ^ 60 ≤ d := by linarith
        have b3 : d * 100 / 2 ^ 53 ≤ d * 100 / 4 := by
          apply div_le_div_of_nonneg_left hd100 (by norm_num) (by norm_num)
        norm_num at b2 e2 ⊢
        linarith

theorem floor_close (x e : ℚ) (h : |x - e| ≤ 1) :
    |⌊x + 1 / 2⌋ - ⌊e + 1 / 2⌋| ≤ 1 := by
  rw [abs_le] at h
  have h1 : ⌊x + 1 / 2⌋ ≤ ⌊e + 1 / 2⌋ + 1 := by
    rw [← Int.floor_add_one]
    exact Int.floor_le_floor (by linarith)
  have h2 : ⌊e + 1 / 2⌋ ≤ ⌊x + 1 / 2⌋ + 1 := by
    rw [← Int.floor_add_one]
    exact Int.floor_le_floor (by linarith)
  rw [abs_le]
  constructor <;> omega

theorem floor_same (x e δ : ℚ) (h : |x - e| ≤ δ) (h1 : δ ≤ Int.fract (e + 1 / 2))
    (h2 : Int.fract (e + 1 / 2) < 1 - δ) : ⌊x + 1 / 2⌋ = ⌊e + 1 / 2⌋ := by
  rw [abs_le] at h
  have hf : e + 1 / 2 = ⌊e + 1 / 2⌋ + Int.fract (e + 1 / 2) := (Int.floor_add_fract _).symm
  rw [Int.floor_eq_iff]
  constructor <;> linarith

theorem min_close (a b : ℤ) (h : |a - b| ≤ 1) : |min 100 a - min 100 b| ≤ 1 := by
  rw [abs_le] at h ⊢
  rcases le_total 100 a with ha | ha <;> rcases le_total 100 b with hb | hb
  · rw [min_eq_left ha, min_eq_left hb]
    omega
  · rw [min_eq_left ha, min_eq_right hb]
    omega
  · rw [min_eq_right ha, min_eq_left hb]
    omega
  · rw [min_eq_right ha, min_eq_right hb]
    omega

/-- C5 (amended). For every non-negative finite used amount and every finite
limit, the budget percentage computed in `renderBudgets` is an integer between
0 and 100; it is 0 when the limit is 0 or less, and otherwise it is the
nearest integer, capped at 100, to the double `x` obtained by dividing the
used amount by the limit, rounding the quotient to the nearest double,
multiplying by 100 and rounding the product to the nearest double; it is 100
when that product overflows. This percentage is never more than 1 away from
`used / limit * 100` rounded to the nearest integer and capped at 100, and it
is equal to it whenever `used / limit * 100` is at least `2^-40` away from
every half-integer. -/
theorem budgetPct_spec (u l : ℚ) (hu : 0 ≤ u) :
    ∃ n : ℤ, budgetPct (JSVal.num (JSNum.fin u)) (JSNum.fin l) = JSNum.fin (n : ℚ) ∧
      0 ≤ n ∧ n ≤ 100 ∧ (l ≤ 0 → n = 0) ∧
      (0 < l →
        ((∃ x : ℚ, 0 ≤ x ∧
            ((JSNum.fin u).div (JSNum.fin l)).mul (JSNum.fin 100) = JSNum.fin x ∧
            n = min 100 (round x)) ∨
          (((JSNum.fin u).div (JSNum.fin l)).mul (JSNum.fin 100) = JSNum.inf ∧ n = 100)) ∧
        |n - min 100 (round (u / l * 100))| ≤ 1 ∧
        (1 / 2 ^ 40 ≤ Int.fract (u / l * 100 + 1 / 2) →
          Int.fract (u / l * 100 + 1 / 2) < 1 - 1 / 2 ^ 40 →
          n = min 100 (round (u / l * 100)))) := by
  by_cases hl : 0 < l
  · have hpct : budgetPct (JSVal.num (JSNum.fin u)) (JSNum.fin l)
        = mathMin (JSNum.fin 100)
            (mathRound (((JSNum.fin u).div (JSNum.fin l)).mul (JSNum.fin 100))) := by
      simp [budgetPct, JSNum.gt, hl, JSVal.toNum]
    have hcap : mathMin (JSNum.fin 100) (mathRound JSNum.inf) = JSNum.fin ((100 : ℤ) : ℚ) := by
      decide!
    have hbig : 2 < u / l → min 100 (round (u / l * 100)) = 100 := by
      intro h2
      apply min_eq_left
      rw [round_eq, Int.le_floor]
      push_cast
      linarith
    rcases budget_product u l hu hl with ⟨hD, hr⟩ | ⟨x, hx0, hD, hsmall, hlarge⟩
    · refine ⟨100, ?_, by norm_num, le_refl _, fun h => absurd hl (not_lt.2 h), fun _ => ?_⟩
      · rw [hpct, hD, hcap]
      · refine ⟨Or.inr ⟨hD, rfl⟩, ?_, fun _ _ => (hbig hr).symm⟩
        rw [hbig hr]
        norm_num
    · have hn0 : 0 ≤ min 100 (round x) := by
        apply le_min (by norm_num)
        rw [round_eq]
        apply Int.floor_nonneg.2
        linarith
      refine ⟨min 100 (round x), ?_, hn0, min_le_left _ _,
        fun h => absurd hl (not_lt.2 h), fun _ => ?_⟩
      · rw [hpct, hD]
        simp only [mathRound, mathMin]
        rw [min_intCast, round_eq]
      · refine ⟨Or.inl ⟨x, hx0, hD, rfl⟩, ?_, ?_⟩
        · rcases le_or_lt (u / l) 2 with h2 | h2
          · rw [round_eq, round_eq]
            apply min_close
            apply floor_close
            have := hsmall h2
            have k : (1 : ℚ) / 2 ^ 40 ≤ 1 := by norm_num
            linarith
          · have hx100 : min 100 (round x) = 100 := by
              apply min_eq_left
              rw [round_eq, Int.le_floor]
              have := hlarge h2
              push_cast
              linarith
            rw [hbig h2, hx100]
            norm_num
        · intro hf1 hf2
          rcases le_or_lt (u / l) 2 with h2 | h2
          · rw [round_eq, round_eq, floor_same x (u / l * 100) (1 / 2 ^ 40) (hsmall h2) hf1 hf2]
          · have hx100 : min 100 (round x) = 100 := by
              apply min_eq_left
              rw [round_eq, Int.le_floor]
              have := hlarge h2
              push_cast
              linarith
            rw [hbig h2, hx100]
  · refine ⟨0, ?_, le_refl _, by norm_num, fun _ => rfl, fun h => absurd h hl⟩
    simp [budgetPct, JSNum.gt, hl]

/-- A used amount of 230 against a limit of 800 gives 29 percent. -/
theorem budgetPct_spec_witness :
    (0 : ℚ) ≤ 230 ∧
    budgetPct (JSVal.num (JSNum.fin 230)) (JSNum.fin 800) = JSNum.fin 29 ∧
    ∃ n : ℤ, budgetPct (JSVal.num (JSNum.fin 230)) (JSNum.fin 800) = JSNum.fin (n : ℚ) ∧
      0 ≤ n ∧ n ≤ 100 ∧ ((800 : ℚ) ≤ 0 → n = 0) ∧
      ((0 : ℚ) < 800 →
        ((∃ x : ℚ, 0 ≤ x ∧
            ((JSNum.fin 230).div (JSNum.fin 800)).mul (JSNum.fin 100) = JSNum.fin x ∧
            n = min 100 (round x)) ∨
          (((JSNum.fin 230).div (JSNum.fin 800)).mul (JSNum.fin 100) = JSNum.inf ∧
            n = 100)) ∧
        |n - min 100 (round ((230 : ℚ) / 800 * 100))| ≤ 1 ∧
        (1 / 2 ^ 40 ≤ Int.fract ((230 : ℚ) / 800 * 100 + 1 / 2) →
          Int.fract ((230 : ℚ) / 800 * 100 + 1 / 2) < 1 - 1 / 2 ^ 40 →
          n = min 100 (round ((230 : ℚ) / 800 * 100)))) :=
  ⟨by norm_num, by decide!, budgetPct_spec 230 800 (by norm_num)⟩

/-- C5 fails as stated: the percentage is the nearest integer to the rounded
product, not to `used / limit * 100`. With 23 used of a limit of 40 the
quotient 0.575 and the product round to 57.49999999999999, so the percentage
is 57, while 23 / 40 * 100 is 57.5 and rounds to 58. With 0.015 used of a
limit of 1 the product rounds to 1.5, so the percentage is 2, while the used
amount times 100 is below 1.5 and rounds to 1. -/
theorem budgetPct_counterexample :
    ((0 : ℚ) ≤ 23 ∧
      ((JSNum.fin 23).div (JSNum.fin 40)).mul (JSNum.fin 100)
        = JSNum.fin (8092405580431359 / 140737488355328) ∧
      budgetPct (JSVal.num (JSNum.fin 23)) (JSNum.fin 40) = JSNum.fin 57 ∧
      min 100 (round ((23 : ℚ) / 40 * 100)) = 58) ∧
    (dbl (15 / 1000) = JSNum.fin (1080863910568919 / 72057594037927936) ∧
      (0 : ℚ) ≤ 1080863910568919 / 72057594037927936 ∧
      ((JSNum.fin (1080863910568919 / 72057594037927936)).div (JSNum.fin 1)).mul
          (JSNum.fin 100) = JSNum.fin (3 / 2) ∧
      budgetPct (JSVal.num (JSNum.fin (1080863910568919 / 72057594037927936))) (JSNum.fin 1)
        = JSNum.fin 2 ∧
      min 100 (round ((1080863910568919 : ℚ) / 72057594037927936 / 1 * 100)) = 1) := by
  refine ⟨⟨by norm_num, by decide!, by decide!, ?_⟩,
    ⟨by decide!, by norm_num, by decide!, by decide!, ?_⟩⟩
  · rw [round_eq]
    norm_num
  · rw [round_eq]
    norm_num

end FinanceTracker
